import Mathlib

/-!
Shallow embedding of the clipboard-watcher crate: the data model (`Body`,
`ClipboardError`, `ErrorWrapper`, `Format`/`Formats`), the per-platform
extraction policies (`src/win/observer.rs`, `src/linux/observer.rs`,
`src/macos/observer.rs`), the fan-out registry (`send_all`), the stream
disposal sequence, the observer loop, the X11 property reader, and the
URI-list parser.  Native calls are modelled as explicit environment
records supplied to the embedded functions; machine integers are `Nat`;
fallible calls return `Except`.  Each extraction function additionally
returns the list of native read operations it performed, mirroring the
order in which the Rust code issues them.
-/

set_option maxRecDepth 4000

namespace ClipWatch

/-- Mirrors `error.rs` `ClipboardError` (the error payload strings are kept). -/
inductive ClipboardError where
  | MonitorFailed (msg : String)
  | ReadError (msg : String)
  | NoMatchingFormat
deriving DecidableEq, Repr

/-- Mirrors `error.rs` `ErrorWrapper`: internal early-exit signals of the extractors. -/
inductive ErrorWrapper where
  | EmptyContent
  | SizeTooLarge
  | ReadError (e : ClipboardError)
  | UserSkipped
deriving DecidableEq, Repr

/-- A filesystem path, as its byte content (`PathBuf`). -/
abbrev BPath := List Nat

/-- Decoded raw image payload (the rgb8 result of `image::DynamicImage::into_rgb8`
in `Body::new_image`); the codec itself is an external collaborator. -/
structure RawImg where
  bytes : List Nat
  width : Nat
  height : Nat
deriving DecidableEq, Repr

/-- Mirrors `body.rs` `Body`.  Paths are modelled as strings (byte content of
`PathBuf`); image payload bytes as lists of bytes. -/
inductive Body where
  | Html (s : String)
  | PlainText (s : String)
  | RawImage (img : RawImg) (path : Option BPath)
  | PngImage (bytes : List Nat) (path : Option BPath)
  | FileList (paths : List BPath)
  | Custom (name : String) (data : List Nat)
deriving DecidableEq, Repr

/-- Mirrors `formats.rs` `Format` on the non-macOS platforms (`id : u32`). -/
structure Format where
  id : Nat
  name : String
deriving DecidableEq, Repr

/-- Mirrors `formats.rs` `Formats`. -/
structure Formats where
  data : List Format
deriving DecidableEq, Repr

/-- Mirrors `Formats::contains_id`. -/
def Formats.containsId (fs : Formats) (id : Nat) : Bool :=
  fs.data.any (fun d => d.id == id)

/-- `ClipboardResult` from `error.rs` (`Result<Arc<Body>, ClipboardError>`). -/
abbrev ClipboardResult := Except ClipboardError Body

/-! ## URI-list parsing (`paths_from_uri_list`, `src/linux/observer.rs`) -/

/-- Byte value of the line separator `b'\n'`. -/
def nlByte : Nat := 10

/-- Byte value of `b'\r'`. -/
def crByte : Nat := 13

/-- The bytes of `b"file://"`. -/
def fileUriHeader : List Nat := [102, 105, 108, 101, 58, 47, 47]

/-- `slice::split` on a separator byte: `n` separators yield `n + 1` pieces
(empty pieces included), as in Rust. -/
def splitOnByte (sep : Nat) : List Nat → List (List Nat)
  | [] => [[]]
  | b :: rest =>
    if b = sep then
      [] :: splitOnByte sep rest
    else
      match splitOnByte sep rest with
      | h :: t => (b :: h) :: t
      | [] => [[b]]

/-- `line.strip_suffix(b"\r").unwrap_or(line)`. -/
def stripCr (l : List Nat) : List Nat :=
  if l.getLast? = some crByte then l.dropLast else l

/-- `line.strip_prefix(pre)`: `some` of the remainder when `pre` leads `l`. -/
def stripHeader (pre l : List Nat) : Option (List Nat) :=
  if pre.isPrefixOf l then some (l.drop pre.length) else none

/-- Value of an ASCII hex digit byte, as decoded by the `percent-encoding` crate. -/
def hexVal (c : Nat) : Option Nat :=
  if 48 ≤ c ∧ c ≤ 57 then some (c - 48)
  else if 97 ≤ c ∧ c ≤ 102 then some (c - 87)
  else if 65 ≤ c ∧ c ≤ 70 then some (c - 55)
  else none

/-- `percent_encoding::percent_decode`: a `%` followed by two hex digits decodes
to one byte; otherwise the `%` passes through literally and decoding resumes at
the next byte. -/
def percentDecode : List Nat → List Nat
  | 37 :: a :: b :: rest =>
    match hexVal a, hexVal b with
    | some hi, some lo => (hi * 16 + lo) :: percentDecode rest
    | _, _ => 37 :: percentDecode (a :: b :: rest)
  | b :: rest => b :: percentDecode rest
  | [] => []

/-- Is `b` a UTF-8 continuation byte (`0x80..=0xBF`)? -/
def contByte (b : Nat) : Bool := 128 ≤ b ∧ b ≤ 191

/-- First-continuation-byte constraint of a three-byte UTF-8 sequence headed by `b`. -/
def valid3 (b c1 c2 : Nat) : Bool :=
  (if b = 0xE0 then decide (0xA0 ≤ c1 ∧ c1 ≤ 0xBF)
   else if b = 0xED then decide (0x80 ≤ c1 ∧ c1 ≤ 0x9F)
   else contByte c1) && contByte c2

/-- First-continuation-byte constraint of a four-byte UTF-8 sequence headed by `b`. -/
def valid4 (b c1 c2 c3 : Nat) : Bool :=
  (if b = 0xF0 then decide (0x90 ≤ c1 ∧ c1 ≤ 0xBF)
   else if b = 0xF4 then decide (0x80 ≤ c1 ∧ c1 ≤ 0x8F)
   else contByte c1) && contByte c2 && contByte c3

/-- UTF-8 validity of a byte sequence, as checked by `str::from_utf8`
(rejecting overlong encodings and surrogates). -/
def utf8Valid : List Nat → Bool
  | [] => true
  | b :: rest =>
    if b < 0x80 then utf8Valid rest
    else if b < 0xC2 then false
    else if b ≤ 0xDF then
      match rest with
      | c1 :: rest2 => contByte c1 && utf8Valid rest2
      | [] => false
    else if b ≤ 0xEF then
      match rest with
      | c1 :: c2 :: rest3 => valid3 b c1 c2 && utf8Valid rest3
      | _ => false
    else if b ≤ 0xF4 then
      match rest with
      | c1 :: c2 :: c3 :: rest4 => valid4 b c1 c2 c3 && utf8Valid rest4
      | _ => false
    else false

/-- `paths_from_uri_list` (`src/linux/observer.rs`): split the payload on
newlines, strip one trailing `\r` per line, keep the lines led by `file://`,
percent-decode the remainder and keep it when it is valid UTF-8.  Paths are
modelled as their byte content. -/
def paths_from_uri_list (uriList : List Nat) : List (List Nat) :=
  (((splitOnByte nlByte uriList).map stripCr).filterMap
      (fun line => stripHeader fileUriHeader line)).filterMap
    (fun s =>
      let d := percentDecode s
      if utf8Valid d then some d else none)

/-- Spec-side restatement of the URI-list parser, phrased as the claim is:
take the newline-separated lines, strip one trailing carriage return, keep
exactly the lines that begin with `file://`, drop that leading marker from
each, percent-decode, and keep the results that are valid UTF-8, in input
order. -/
def specUriPaths (uriList : List Nat) : List (List Nat) :=
  ((((splitOnByte nlByte uriList).map stripCr).filter
        (fun line => fileUriHeader.isPrefixOf line)).map
      (fun line => percentDecode (line.drop fileUriHeader.length))).filter
    (fun d => utf8Valid d)

/-! ## Fan-out registry (`BodySenders`, `body_senders.rs` / `body.rs`) -/

/-- One subscriber's bounded mpsc queue (`futures::channel::mpsc`), as seen by a
`Sender`: a capacity, the buffered items, and whether the receiving side closed it. -/
structure SubQueue where
  capacity : Nat
  buffer : List ClipboardResult
  closed : Bool
deriving Repr

/-- `Sender::try_send`: a non-blocking send that enqueues when the channel is
open and below capacity and otherwise fails immediately, leaving the queue
untouched.  Returns the new queue and whether the send succeeded. -/
def trySend (q : SubQueue) (msg : ClipboardResult) : SubQueue × Bool :=
  if q.closed ∨ q.capacity ≤ q.buffer.length then
    (q, false)
  else
    ({ q with buffer := q.buffer ++ [msg] }, true)

/-- The `StreamId → Sender` registry held by `BodySenders`, with each sender's
queue state.  The mutex is implicit: every operation acts on the whole map. -/
abbrev SenderMap := List (Nat × SubQueue)

/-- `BodySenders::send_all`: one `try_send` per registered sender; a failed
send is dropped and its `StreamId` is recorded in the returned diagnostic list
(the `error!` log line). -/
def send_all (reg : SenderMap) (msg : ClipboardResult) : SenderMap × List Nat :=
  (reg.map (fun e => (e.1, (trySend e.2 msg).1)),
   (reg.filter (fun e => !(trySend e.2 msg).2)).map (fun e => e.1))

/-- `BodySenders::register`. -/
def registerSender (reg : SenderMap) (id : Nat) (q : SubQueue) : SenderMap :=
  (id, q) :: reg.filter (fun e => e.1 ≠ id)

/-- `BodySenders::unregister`: remove the entry for `id` from the map. -/
def unregisterSender (reg : SenderMap) (id : Nat) : SenderMap :=
  reg.filter (fun e => e.1 ≠ id)

/-! ## Stream disposal (`impl Drop for ClipboardStream`, `stream.rs`) -/

/-- The observable steps of `ClipboardStream::drop`, in execution order. -/
inductive DisposeStep where
  | closeQueue
  | drainQueue
  | unregister
deriving DecidableEq, Repr

/-- `self.body_rx.close()`: mark the queue closed; buffered items remain. -/
def closeOwnQueue (reg : SenderMap) (id : Nat) : SenderMap :=
  reg.map (fun e => if e.1 = id then (e.1, { e.2 with closed := true }) else e)

/-- The `try_next` drain loop of `ClipboardStream::drop`: take every buffered
item out of the (closed) queue.  Returns the updated registry and the items
that were drained. -/
def drainOwnQueue (reg : SenderMap) (id : Nat) : SenderMap × List ClipboardResult :=
  (reg.map (fun e => if e.1 = id then (e.1, { e.2 with buffer := [] }) else e),
   ((reg.filter (fun e => e.1 = id)).map (fun e => e.2.buffer)).flatten)

/-- `ClipboardStream::drop`: close the queue, drain the remaining buffered
items, then unregister from `BodySenders` — in that order.  Returns the final
registry, the drained items, and the step trace. -/
def disposeStream (reg : SenderMap) (id : Nat) :
    SenderMap × List ClipboardResult × List DisposeStep :=
  let reg1 := closeOwnQueue reg id
  let (reg2, drained) := drainOwnQueue reg1 id
  let reg3 := unregisterSender reg2 id
  (reg3, drained, [DisposeStep.closeQueue, DisposeStep.drainQueue, DisposeStep.unregister])

/-! ## Observer loop (`observe`, `src/linux/observer.rs` / `src/win/observer.rs`) -/

/-- One iteration's input to the observer loop: what the change-detection poll
produced.  `noChange` covers `Ok(None)` / a non-clipboard event (Linux) and
`Ok(false)` (Windows); `change r` is a detected change together with the
outcome of `poll_clipboard` for that cycle; `pollErr` is a failure of the
change-detection mechanism itself. -/
inductive LoopEvt where
  | pollErr (msg : String)
  | noChange
  | change (r : Except ClipboardError (Option Body))
deriving Repr

/-- The observer loop, as the sequence of `ClipboardResult`s it publishes via
`send_all`: a read error or a body is published and the loop continues; a
skipped cycle publishes nothing; a monitor failure publishes one
`MonitorFailed` and breaks out of the loop, ignoring everything after it. -/
def observeRun : List LoopEvt → List ClipboardResult
  | [] => []
  | LoopEvt.pollErr m :: _ => [Except.error (ClipboardError.MonitorFailed m)]
  | LoopEvt.noChange :: rest => observeRun rest
  | LoopEvt.change (Except.ok (some b)) :: rest => Except.ok b :: observeRun rest
  | LoopEvt.change (Except.ok none) :: rest => observeRun rest
  | LoopEvt.change (Except.error e) :: rest => Except.error e :: observeRun rest

/-- Is a published result a `MonitorFailed` error? -/
def isMonitorFailure : ClipboardResult → Bool
  | Except.error (ClipboardError.MonitorFailed _) => true
  | _ => false

/-! ## Read-event traces

Every native read issued by an extraction cycle, in issue order.  The
traces let the theorems speak about which formats a cycle inspected. -/

/-- One native read operation. -/
inductive REvt where
  | sizeQuery (id : Nat)
  | readFormat (id : Nat)
  | readFileList
  | readHtml
  | readText
  | readName (t : String)
  | readLength
  | propSizeQuery
  | deleteProp
deriving DecidableEq, Repr

/-- A full-cycle event: the single gatekeeper consultation, or a native read. -/
inductive Evt where
  | gate
  | r (e : REvt)
deriving DecidableEq, Repr

/-- Sequencing of two traced fallible computations (the `?` operator):
an error short-circuits, keeping the trace accumulated so far. -/
def andT {α β : Type} (x : Except ErrorWrapper α × List REvt)
    (f : α → Except ErrorWrapper β × List REvt) : Except ErrorWrapper β × List REvt :=
  match x with
  | (Except.error e, t) => (Except.error e, t)
  | (Except.ok a, t) => ((f a).1, t ++ (f a).2)

/-- What an observer iteration publishes for a `poll_clipboard` outcome:
a body or a read error goes out via `send_all`; a skipped cycle publishes
nothing (the `Ok(None) => {}` arms of `observe`). -/
def publishOf : Except ClipboardError (Option Body) → Option ClipboardResult
  | Except.ok (some b) => some (Except.ok b)
  | Except.ok none => none
  | Except.error e => some (Except.error e)

/-! ## Windows extraction (`src/win/observer.rs`) -/

/-- `clipboard_win::formats::CF_DIB`. -/
def CF_DIB : Nat := 8

/-- `clipboard_win::formats::CF_DIBV5`. -/
def CF_DIBV5 : Nat := 17

/-- `clipboard_win::formats::FileList` (`CF_HDROP`). -/
def CF_HDROP : Nat := 15

/-- The native Windows clipboard, as seen by one extraction cycle: the
outcome of each native call the cycle may issue. -/
structure WinEnv where
  /-- The id `register_format("PNG")` produced (`WinObserver.png_format`). -/
  pngId : Nat
  /-- `clipboard_win::size(format)`: cheap size hint; `none` models failure. -/
  size : Nat → Option Nat
  /-- `clipboard_win::get(RawData(format))`. -/
  get : Nat → Except String (List Nat)
  /-- `formats::FileList.read_clipboard`; `none` models `Err`. -/
  fileList : Option (List BPath)
  /-- `load_dib` composed with `into_rgb8` (`Body::new_image`). -/
  dib : List Nat → Except String RawImg
  /-- `html_format.read_clipboard`; `none` models `Err`. -/
  html : Option String
  /-- `formats::Unicode.read_clipboard`; `none` models `Err`. -/
  unicode : Option String
  /-- `Clipboard::new_attempts(10)`: exclusive clipboard access; `Except.error`
  models failure to open. -/
  openClip : Except String Unit

/-- The `clipboard_win::get(RawData(format))` step of
`Formats::extract_clipboard_format`: empty bytes are `EmptyContent`. -/
def winGetData (env : WinEnv) (formatId : Nat) :
    Except ErrorWrapper (Option (List Nat)) × List REvt :=
  match env.get formatId with
  | Except.error e =>
    (Except.error (ErrorWrapper.ReadError (ClipboardError.ReadError e)),
     [REvt.readFormat formatId])
  | Except.ok data =>
    if data.isEmpty then (Except.error ErrorWrapper.EmptyContent, [REvt.readFormat formatId])
    else (Except.ok (some data), [REvt.readFormat formatId])

/-- `Formats::extract_clipboard_format` (win): absent format is `none`;
with a limit, the size hint is consulted first (`SizeTooLarge` /
`EmptyContent` early exits); then the raw bytes are fetched, empty bytes
being `EmptyContent`. -/
def winExtractFormat (env : WinEnv) (fs : Formats) (formatId : Nat)
    (maxBytes : Option Nat) : Except ErrorWrapper (Option (List Nat)) × List REvt :=
  if fs.containsId formatId then
    match maxBytes with
    | some max =>
      match env.size formatId with
      | some size =>
        if max < size then
          (Except.error ErrorWrapper.SizeTooLarge, [REvt.sizeQuery formatId])
        else
          andT (Except.ok (), [REvt.sizeQuery formatId]) (fun _ => winGetData env formatId)
      | none => (Except.error ErrorWrapper.EmptyContent, [REvt.sizeQuery formatId])
    | none => winGetData env formatId
  else
    (Except.ok none, [])

/-- The `load_dib` step of `Formats::extract_raw_image`. -/
def winDecodeDib (env : WinEnv) (bytes : List Nat) : Except ErrorWrapper (Option RawImg) :=
  match env.dib bytes with
  | Except.ok img => Except.ok (some img)
  | Except.error e =>
    Except.error (ErrorWrapper.ReadError
      (ClipboardError.ReadError ("Failed to load DIB image: " ++ e)))

/-- `Formats::extract_raw_image` (win): try `CF_DIBV5`, then `CF_DIB`,
decode the hit via `load_dib`. -/
def winExtractRawImage (env : WinEnv) (fs : Formats) (maxSize : Option Nat) :
    Except ErrorWrapper (Option RawImg) × List REvt :=
  andT (winExtractFormat env fs CF_DIBV5 maxSize) (fun v5 =>
    match v5 with
    | some bytes => (winDecodeDib env bytes, [])
    | none =>
      andT (winExtractFormat env fs CF_DIB maxSize) (fun dib =>
        match dib with
        | some bytes => (winDecodeDib env bytes, [])
        | none => (Except.ok none, [])))

/-- `Formats::extract_files_list` (win): present and readable yields the
list, an empty list is `EmptyContent`, a read failure is `none`. -/
def winExtractFilesList (env : WinEnv) (fs : Formats) :
    Except ErrorWrapper (Option (List BPath)) × List REvt :=
  if fs.containsId CF_HDROP then
    (match env.fileList with
     | some files =>
       if files.isEmpty then Except.error ErrorWrapper.EmptyContent
       else Except.ok (some files)
     | none => Except.ok none,
     [REvt.readFileList])
  else
    (Except.ok none, [])

/-- The `extract_files_list()?.filter(|l| l.len() == 1).map(|mut f| f.remove(0))`
image-path probe of the png / raw-image arms. -/
def winImagePath (env : WinEnv) (fs : Formats) :
    Except ErrorWrapper (Option BPath) × List REvt :=
  andT (winExtractFilesList env fs) (fun r =>
    (Except.ok ((r.filter (fun l => l.length == 1)).map (fun l => l.headI)), []))

/-- The custom-formats loop of `WinObserver::extract_clipboard_content`. -/
def winExtractCustoms (env : WinEnv) (fs : Formats) :
    List Format → Option Nat → Except ErrorWrapper (Option Body) × List REvt
  | [], _ => (Except.ok none, [])
  | f :: rest, maxSize =>
    andT (winExtractFormat env fs f.id maxSize) (fun v =>
      match v with
      | some bytes => (Except.ok (some (Body.Custom f.name bytes)), [])
      | none => winExtractCustoms env fs rest maxSize)

/-- The html / plain-text tail of `WinObserver::extract_clipboard_content`:
a successful html read that is empty raises `EmptyContent` via
`content_is_not_empty`, a failed read falls through to the Unicode text
read, which behaves the same way; neither consults the size limit. -/
def winHtmlText (env : WinEnv) : Except ErrorWrapper (Option Body) × List REvt :=
  match env.html with
  | some t =>
    if t.isEmpty then (Except.error ErrorWrapper.EmptyContent, [REvt.readHtml])
    else (Except.ok (some (Body.Html t)), [REvt.readHtml])
  | none =>
    match env.unicode with
    | some t =>
      if t.isEmpty then (Except.error ErrorWrapper.EmptyContent, [REvt.readHtml, REvt.readText])
      else (Except.ok (some (Body.PlainText t)), [REvt.readHtml, REvt.readText])
    | none => (Except.ok none, [REvt.readHtml, REvt.readText])

/-- The body of `WinObserver::extract_clipboard_content` after the
gatekeeper: customs, then PNG, then raw image, then file list, then
html / text. -/
def winExtractBody (env : WinEnv) (fs : Formats) (customs : List Format)
    (maxSize : Option Nat) : Except ErrorWrapper (Option Body) × List REvt :=
  andT (winExtractCustoms env fs customs maxSize) (fun c =>
    match c with
    | some b => (Except.ok (some b), [])
    | none =>
      andT (winExtractFormat env fs env.pngId maxSize) (fun png =>
        match png with
        | some pngBytes =>
          andT (winImagePath env fs) (fun p =>
            (Except.ok (some (Body.PngImage pngBytes p)), []))
        | none =>
          andT (winExtractRawImage env fs maxSize) (fun raw =>
            match raw with
            | some img =>
              andT (winImagePath env fs) (fun p =>
                (Except.ok (some (Body.RawImage img p)), []))
            | none =>
              andT (winExtractFilesList env fs) (fun fl =>
                match fl with
                | some files => (Except.ok (some (Body.FileList files)), [])
                | none => winHtmlText env))))

/-- `WinObserver::extract_clipboard_content`: the catalog is built (input
here), the gatekeeper is consulted exactly once, and only if it passes is
any format content read. -/
def winExtractContent (env : WinEnv) (fs : Formats) (customs : List Format)
    (maxSize : Option Nat) (gate : Bool) : Except ErrorWrapper (Option Body) × List Evt :=
  if gate then
    let x := winExtractBody env fs customs maxSize
    (x.1, Evt.gate :: x.2.map Evt.r)
  else
    (Except.error ErrorWrapper.UserSkipped, [Evt.gate])

/-- `WinObserver::poll_clipboard`: open the clipboard, run the extractor,
then map the `ErrorWrapper`: soft outcomes (`EmptyContent`, `SizeTooLarge`,
`UserSkipped`) become `Ok(None)`; a read error surfaces; `Ok(None)` from
the extractor becomes `NoMatchingFormat`. -/
def winPollClipboard (env : WinEnv) (fs : Formats) (customs : List Format)
    (maxSize : Option Nat) (gate : Bool) :
    Except ClipboardError (Option Body) × List Evt :=
  match env.openClip with
  | Except.error e => (Except.error (ClipboardError.ReadError e), [])
  | Except.ok _ =>
    match winExtractContent env fs customs maxSize gate with
    | (Except.ok (some b), t) => (Except.ok (some b), t)
    | (Except.error ErrorWrapper.EmptyContent, t) => (Except.ok none, t)
    | (Except.error ErrorWrapper.SizeTooLarge, t) => (Except.ok none, t)
    | (Except.error ErrorWrapper.UserSkipped, t) => (Except.ok none, t)
    | (Except.error (ErrorWrapper.ReadError e), t) => (Except.error e, t)
    | (Except.ok none, t) => (Except.error ClipboardError.NoMatchingFormat, t)

/-! ## macOS extraction (`src/macos/observer.rs`) -/

/-- `formats.rs` `Format` on macOS: the id is the pasteboard type string. -/
structure MacFormat where
  id : String
  name : String
deriving DecidableEq, Repr

/-- `Formats` on macOS. -/
structure MacFormats where
  data : List MacFormat
deriving DecidableEq, Repr

/-- `Formats::contains_format`. -/
def MacFormats.containsFormat (fs : MacFormats) (t : String) : Bool :=
  fs.data.any (fun f => f.id == t)

/-- `NSPasteboardTypePNG`. -/
def macPngType : String := "public.png"

/-- `NSPasteboardTypeTIFF`. -/
def macTiffType : String := "public.tiff"

/-- `NSPasteboardTypeFileURL`. -/
def macFileUrlType : String := "public.file-url"

/-- `NSPasteboardTypeHTML`. -/
def macHtmlType : String := "public.html"

/-- `NSPasteboardTypeString`. -/
def macStringType : String := "public.utf8-plain-text"

/-- The pasteboard, as seen by one extraction cycle. -/
structure MacEnv where
  /-- `pasteboard.dataForType(t)`; `none` models a missing payload. -/
  data : String → Option (List Nat)
  /-- `readObjectsForClasses_options(NSURL, FileURLsOnly)`, its results already
  narrowed to file-URL paths; `none` models `readObjects` itself returning nil. -/
  fileUrls : Option (List BPath)
  /-- `image::load_from_memory_with_format(Tiff)` composed with `into_rgb8`. -/
  tiff : List Nat → Except String RawImg
  /-- `pasteboard.pasteboardItems()`: each item's `stringForType` view; `none`
  models a nil item array. -/
  items : Option (List (String → Option String))

/-- `extract_clipboard_format_macos`: absent type is `none`; a present payload
of size zero is `EmptyContent`; a present payload beyond the limit is
`SizeTooLarge`; otherwise the bytes. -/
def macExtractFormat (env : MacEnv) (fs : MacFormats) (t : String)
    (maxSize : Option Nat) : Except ErrorWrapper (Option (List Nat)) × List REvt :=
  if fs.containsFormat t then
    (match env.data t with
     | some bytes =>
       if bytes.length = 0 then Except.error ErrorWrapper.EmptyContent
       else
         match maxSize with
         | some limit =>
           if limit < bytes.length then Except.error ErrorWrapper.SizeTooLarge
           else Except.ok (some bytes)
         | none => Except.ok (some bytes)
     | none => Except.ok none,
     [REvt.readName t])
  else
    (Except.ok none, [])

/-- `OSXObserver::extract_files_list`: present and non-empty yields the list;
an empty or nil result is `none` (the macOS arm raises no error here). -/
def macExtractFilesList (env : MacEnv) (fs : MacFormats) :
    Except ErrorWrapper (Option (List BPath)) × List REvt :=
  if fs.containsFormat macFileUrlType then
    (match env.fileUrls with
     | some files => if files.isEmpty then Except.ok none else Except.ok (some files)
     | none => Except.ok none,
     [REvt.readFileList])
  else
    (Except.ok none, [])

/-- The item loop of `OSXObserver::string_from_type`: the first item carrying
the type decides — non-empty string is returned, an empty one is
`EmptyContent`. -/
def macStringLoop (t : String) : List (String → Option String) →
    Except ErrorWrapper (Option String)
  | [] => Except.ok none
  | item :: rest =>
    match item t with
    | some s =>
      if s.isEmpty then Except.error ErrorWrapper.EmptyContent else Except.ok (some s)
    | none => macStringLoop t rest

/-- `OSXObserver::string_from_type`: absent type is `none`; nil pasteboard
items is `EmptyContent`; otherwise the item loop decides. -/
def macStringFromType (env : MacEnv) (fs : MacFormats) (t : String) :
    Except ErrorWrapper (Option String) × List REvt :=
  if fs.containsFormat t then
    (match env.items with
     | none => Except.error ErrorWrapper.EmptyContent
     | some items => macStringLoop t items,
     [REvt.readName t])
  else
    (Except.ok none, [])

/-- `OSXObserver::extract_raw_image`: the TIFF payload, decoded. -/
def macExtractRawImage (env : MacEnv) (fs : MacFormats) (maxSize : Option Nat) :
    Except ErrorWrapper (Option RawImg) × List REvt :=
  andT (macExtractFormat env fs macTiffType maxSize) (fun v =>
    match v with
    | some bytes =>
      (match env.tiff bytes with
       | Except.ok img => Except.ok (some img)
       | Except.error e =>
         Except.error (ErrorWrapper.ReadError
           (ClipboardError.ReadError ("Failed to load TIFF image: " ++ e))),
       [])
    | none => (Except.ok none, []))

/-- The `extract_files_list(..)?.filter(|l| l.len() == 1).map(..remove(0))`
image-path probe of the macOS png / raw-image arms. -/
def macImagePath (env : MacEnv) (fs : MacFormats) :
    Except ErrorWrapper (Option BPath) × List REvt :=
  andT (macExtractFilesList env fs) (fun r =>
    (Except.ok ((r.filter (fun l => l.length == 1)).map (fun l => l.headI)), []))

/-- The custom-formats loop of `OSXObserver::extract_content`. -/
def macExtractCustoms (env : MacEnv) (fs : MacFormats) :
    List MacFormat → Option Nat → Except ErrorWrapper (Option Body) × List REvt
  | [], _ => (Except.ok none, [])
  | f :: rest, maxSize =>
    andT (macExtractFormat env fs f.id maxSize) (fun v =>
      match v with
      | some bytes => (Except.ok (some (Body.Custom f.name bytes)), [])
      | none => macExtractCustoms env fs rest maxSize)

/-- The body of `OSXObserver::extract_content` after the gatekeeper:
customs, then PNG, then TIFF raw image, then file list, then html, then
plain text. -/
def macExtractBody (env : MacEnv) (fs : MacFormats) (customs : List MacFormat)
    (maxSize : Option Nat) : Except ErrorWrapper (Option Body) × List REvt :=
  andT (macExtractCustoms env fs customs maxSize) (fun c =>
    match c with
    | some b => (Except.ok (some b), [])
    | none =>
      andT (macExtractFormat env fs macPngType maxSize) (fun png =>
        match png with
        | some pngBytes =>
          andT (macImagePath env fs) (fun p =>
            (Except.ok (some (Body.PngImage pngBytes p)), []))
        | none =>
          andT (macExtractRawImage env fs maxSize) (fun raw =>
            match raw with
            | some img =>
              andT (macImagePath env fs) (fun p =>
                (Except.ok (some (Body.RawImage img p)), []))
            | none =>
              andT (macExtractFilesList env fs) (fun fl =>
                match fl with
                | some files => (Except.ok (some (Body.FileList files)), [])
                | none =>
                  andT (macStringFromType env fs macHtmlType) (fun html =>
                    match html with
                    | some s => (Except.ok (some (Body.Html s)), [])
                    | none =>
                      andT (macStringFromType env fs macStringType) (fun txt =>
                        match txt with
                        | some s => (Except.ok (some (Body.PlainText s)), [])
                        | none => (Except.ok none, [])))))))

/-- `OSXObserver::extract_content`: catalog built (input), gatekeeper once,
then the priority chain. -/
def macExtractContent (env : MacEnv) (fs : MacFormats) (customs : List MacFormat)
    (maxSize : Option Nat) (gate : Bool) : Except ErrorWrapper (Option Body) × List Evt :=
  if gate then
    let x := macExtractBody env fs customs maxSize
    (x.1, Evt.gate :: x.2.map Evt.r)
  else
    (Except.error ErrorWrapper.UserSkipped, [Evt.gate])

/-- `OSXObserver::get_clipboard_content`: the same `ErrorWrapper` unwrapping
as the other platforms. -/
def macGetClipboardContent (env : MacEnv) (fs : MacFormats) (customs : List MacFormat)
    (maxSize : Option Nat) (gate : Bool) :
    Except ClipboardError (Option Body) × List Evt :=
  match macExtractContent env fs customs maxSize gate with
  | (Except.ok (some b), t) => (Except.ok (some b), t)
  | (Except.error ErrorWrapper.EmptyContent, t) => (Except.ok none, t)
  | (Except.error ErrorWrapper.SizeTooLarge, t) => (Except.ok none, t)
  | (Except.error ErrorWrapper.UserSkipped, t) => (Except.ok none, t)
  | (Except.error (ErrorWrapper.ReadError e), t) => (Except.error e, t)
  | (Except.ok none, t) => (Except.error ClipboardError.NoMatchingFormat, t)

/-! ## Linux / X11 extraction (`src/linux/observer.rs`) -/

/-- The interned atom ids of the `atom_manager!` block. -/
structure LinAtoms where
  CLIPBOARD : Nat
  MULTIPLE : Nat
  SAVE_TARGETS : Nat
  TIMESTAMP : Nat
  METADATA : Nat
  DATA : Nat
  TARGETS : Nat
  LENGTH : Nat
  ATOM : Nat
  INCR : Nat
  UTF8_STRING : Nat
  UTF8_MIME_0 : Nat
  UTF8_MIME_1 : Nat
  HTML : Nat
  PNG_MIME : Nat
  FILE_LIST : Nat
deriving DecidableEq, Repr

/-- `DEFAULT_TIMEOUT` (3 s), in milliseconds. -/
def DEFAULT_TIMEOUT_MS : Nat := 3000

/-- A `GetPropertyReply`, as `read_property_data` peeks at it. -/
structure PropReply where
  type_ : Nat
  value : List Nat
deriving DecidableEq, Repr

/-- What one `poll_for_event` call inside the INCR loop produced.  A
`notify` carries the chunk bytes that the follow-up
`get_property(delete = true)` would transfer (`Except.error` models that
follow-up read failing). -/
inductive IncrPoll where
  | noEvent
  | pollFail (msg : String)
  | notify (atom : Nat) (newValue : Bool) (chunk : Except String (List Nat))
  | otherEvent
deriving Repr

/-- Actions of `read_property_data` observable on the X server, in order. -/
inductive XAct where
  | deleteMarker
  | readChunk (data : List Nat)
  | readDirect (data : List Nat)
  | deleteDirect
deriving DecidableEq, Repr

/-- The INCR chunk loop of `read_property_data`: at the top of each
iteration the elapsed time is checked against the 3-second budget; a
matching `NEW_VALUE` notification has its chunk read — empty terminates,
non-empty is appended; other poll outcomes are skipped.  Each poll input
carries the elapsed milliseconds at its iteration's check.  An exhausted
input stream models a run that only times out (no further events until the
budget passes). -/
def incrLoop (propertyAtom : Nat) :
    List (Nat × IncrPoll) → List Nat → Except ErrorWrapper (List Nat) × List XAct
  | [], _ =>
    (Except.error (ErrorWrapper.ReadError
      (ClipboardError.ReadError "Timeout during INCR transfer")), [])
  | (elapsed, p) :: rest, buf =>
    if DEFAULT_TIMEOUT_MS < elapsed then
      (Except.error (ErrorWrapper.ReadError
        (ClipboardError.ReadError "Timeout during INCR transfer")), [])
    else
      match p with
      | IncrPoll.pollFail m =>
        (Except.error (ErrorWrapper.ReadError (ClipboardError.ReadError m)), [])
      | IncrPoll.notify atom newValue chunk =>
        if atom = propertyAtom ∧ newValue then
          match chunk with
          | Except.error m =>
            (Except.error (ErrorWrapper.ReadError (ClipboardError.ReadError m)), [])
          | Except.ok data =>
            if data.isEmpty then (Except.ok buf, [XAct.readChunk data])
            else
              let x := incrLoop propertyAtom rest (buf ++ data)
              (x.1, XAct.readChunk data :: x.2)
        else
          incrLoop propertyAtom rest buf
      | IncrPoll.noEvent => incrLoop propertyAtom rest buf
      | IncrPoll.otherEvent => incrLoop propertyAtom rest buf

/-- `X11Context::read_property_data`: peek at the staged property; an INCR
type marker is deleted first and the chunk loop runs; a direct property's
value is taken and the property is then explicitly deleted. -/
def read_property_data (atoms : LinAtoms) (propertyAtom : Nat)
    (initial : Except String PropReply) (deleteMarker : Except String Unit)
    (polls : List (Nat × IncrPoll)) (deleteDirect : Except String Unit) :
    Except ErrorWrapper (List Nat) × List XAct :=
  match initial with
  | Except.error m =>
    (Except.error (ErrorWrapper.ReadError (ClipboardError.ReadError m)), [])
  | Except.ok reply =>
    if reply.type_ = atoms.INCR then
      match deleteMarker with
      | Except.error m =>
        (Except.error (ErrorWrapper.ReadError (ClipboardError.ReadError m)), [XAct.deleteMarker])
      | Except.ok _ =>
        let x := incrLoop propertyAtom polls []
        (x.1, XAct.deleteMarker :: x.2)
    else
      match deleteDirect with
      | Except.error m =>
        (Except.error (ErrorWrapper.ReadError (ClipboardError.ReadError m)),
         [XAct.readDirect reply.value])
      | Except.ok _ =>
        (Except.ok reply.value, [XAct.readDirect reply.value, XAct.deleteDirect])

/-- The X11 server, as seen by one extraction cycle at the level the
extraction chain uses it: each call's outcome as a function of its
arguments.  `request fmt slot` is `request_property` (staged property atom
or a read error); `readProp prop` is `read_property_data prop`;
`propSize prop` is `get_property_size`; `deleteProp prop` the cleanup
delete; `lossy` is `String::from_utf8_lossy` (external standard library). -/
structure LinEnv where
  request : Nat → Nat → Except String Nat
  readProp : Nat → Except String (List Nat)
  propSize : Nat → Except String Nat
  deleteProp : Nat → Except String Unit
  lossy : List Nat → String

/-- `X11Context::request_and_read_property`. -/
def linRequestRead (env : LinEnv) (formatToRead propSlot : Nat) :
    Except ErrorWrapper (List Nat) :=
  match env.request formatToRead propSlot with
  | Except.error e => Except.error (ErrorWrapper.ReadError (ClipboardError.ReadError e))
  | Except.ok prop =>
    match env.readProp prop with
    | Except.error e => Except.error (ErrorWrapper.ReadError (ClipboardError.ReadError e))
    | Except.ok bytes => Except.ok bytes

/-- The first four bytes as a `u32` (`u32::from_ne_bytes`, little-endian). -/
def u32FromLe (bs : List Nat) : Nat :=
  bs.headI + 256 * (bs.tail.headI + 256 * (bs.tail.tail.headI + 256 * bs.tail.tail.tail.headI))

/-- The expensive arm of `read_format_with_size_check`: request the data,
peek at the staged property's size when a limit is set (zero is
`EmptyContent`; over the limit deletes the staged property and yields
`SizeTooLarge`), then read the staged property. -/
def linSlowPath (env : LinEnv) (atoms : LinAtoms) (formatToRead : Nat)
    (maxSize : Option Nat) : Except ErrorWrapper (List Nat) × List REvt :=
  match env.request formatToRead atoms.DATA with
  | Except.error e =>
    (Except.error (ErrorWrapper.ReadError (ClipboardError.ReadError e)), [])
  | Except.ok dataProp =>
    match maxSize with
    | some max =>
      (match env.propSize dataProp with
       | Except.error e =>
         (Except.error (ErrorWrapper.ReadError (ClipboardError.ReadError e)),
          [REvt.propSizeQuery])
       | Except.ok size =>
         if size = 0 then (Except.error ErrorWrapper.EmptyContent, [REvt.propSizeQuery])
         else if max < size then
           match env.deleteProp dataProp with
           | Except.error e =>
             (Except.error (ErrorWrapper.ReadError (ClipboardError.ReadError e)),
              [REvt.propSizeQuery, REvt.deleteProp])
           | Except.ok _ =>
             (Except.error ErrorWrapper.SizeTooLarge,
              [REvt.propSizeQuery, REvt.deleteProp])
         else
           (match env.readProp dataProp with
            | Except.error e =>
              Except.error (ErrorWrapper.ReadError (ClipboardError.ReadError e))
            | Except.ok bytes => Except.ok bytes,
            [REvt.propSizeQuery, REvt.readFormat formatToRead]))
    | none =>
      (match env.readProp dataProp with
       | Except.error e =>
         Except.error (ErrorWrapper.ReadError (ClipboardError.ReadError e))
       | Except.ok bytes => Except.ok bytes,
       [REvt.readFormat formatToRead])

/-- `X11Context::read_format_with_size_check`: with a limit and a clipboard
owner advertising `LENGTH`, the cheap length probe runs first (zero is
`EmptyContent`, beyond the limit is `SizeTooLarge`, otherwise a second
request fetches the data); a malformed length reply (< 4 bytes) falls
through to the expensive path. -/
def read_format_with_size_check (env : LinEnv) (atoms : LinAtoms)
    (formatToRead : Nat) (fs : Formats) (maxSize : Option Nat) :
    Except ErrorWrapper (List Nat) × List REvt :=
  match maxSize, fs.containsId atoms.LENGTH with
  | some max, true =>
    (match linRequestRead env atoms.LENGTH atoms.METADATA with
     | Except.error e => (Except.error e, [REvt.readLength])
     | Except.ok sizeBytes =>
       if 4 ≤ sizeBytes.length then
         let size := u32FromLe sizeBytes
         if size = 0 then (Except.error ErrorWrapper.EmptyContent, [REvt.readLength])
         else if max < size then (Except.error ErrorWrapper.SizeTooLarge, [REvt.readLength])
         else
           (linRequestRead env formatToRead atoms.DATA,
            [REvt.readLength, REvt.readFormat formatToRead])
       else
         let x := linSlowPath env atoms formatToRead maxSize
         (x.1, REvt.readLength :: x.2))
  | _, _ => linSlowPath env atoms formatToRead maxSize

/-- `X11Context::extract_file_list`: read `text/uri-list` and parse it. -/
def linExtractFileList (env : LinEnv) (atoms : LinAtoms) :
    Except ErrorWrapper (List BPath) × List REvt :=
  (match linRequestRead env atoms.FILE_LIST atoms.DATA with
   | Except.error e => Except.error e
   | Except.ok raw => Except.ok (paths_from_uri_list raw),
   [REvt.readFormat atoms.FILE_LIST])

/-- `X11Context::available_text_format`: the first advertised plain-text atom. -/
def available_text_format (atoms : LinAtoms) (fs : Formats) : Option Nat :=
  [atoms.UTF8_MIME_0, atoms.UTF8_MIME_1, atoms.UTF8_STRING].find?
    (fun f => fs.containsId f)

/-- The custom-formats loop of `LinuxObserver::extract_clipboard_content`:
presence in the catalog is checked before any read. -/
def linExtractCustoms (env : LinEnv) (atoms : LinAtoms) (fs : Formats) :
    List Format → Option Nat → Except ErrorWrapper (Option Body) × List REvt
  | [], _ => (Except.ok none, [])
  | f :: rest, maxSize =>
    if fs.containsId f.id then
      andT (read_format_with_size_check env atoms f.id fs maxSize) (fun data =>
        (Except.ok (some (Body.Custom f.name data)), []))
    else
      linExtractCustoms env atoms fs rest maxSize

/-- The `file-list present, read Ok, length 1` image-path probe of the
Linux png arm; read failures are swallowed (`if let Ok(..)`). -/
def linImagePath (env : LinEnv) (atoms : LinAtoms) (fs : Formats) :
    Option BPath × List REvt :=
  if fs.containsId atoms.FILE_LIST then
    match linExtractFileList env atoms with
    | (Except.ok files, t) =>
      (if files.length = 1 then some files.headI else none, t)
    | (Except.error _, t) => (none, t)
  else
    (none, [])

/-- The body of `LinuxObserver::extract_clipboard_content` after the
gatekeeper: customs, then PNG, then file list, then html, then the first
available plain-text atom, else `NoMatchingFormat`. -/
def linExtractBody (env : LinEnv) (atoms : LinAtoms) (fs : Formats)
    (customs : List Format) (maxSize : Option Nat) :
    Except ErrorWrapper (Option Body) × List REvt :=
  andT (linExtractCustoms env atoms fs customs maxSize) (fun c =>
    match c with
    | some b => (Except.ok (some b), [])
    | none =>
      if fs.containsId atoms.PNG_MIME then
        andT (read_format_with_size_check env atoms atoms.PNG_MIME fs maxSize) (fun bytes =>
          let p := linImagePath env atoms fs
          (Except.ok (some (Body.PngImage bytes p.1)), p.2))
      else if fs.containsId atoms.FILE_LIST then
        andT (linExtractFileList env atoms) (fun files =>
          (Except.ok (some (Body.FileList files)), []))
      else if fs.containsId atoms.HTML then
        (match linRequestRead env atoms.HTML atoms.DATA with
         | Except.error e => Except.error e
         | Except.ok bytes => Except.ok (some (Body.Html (env.lossy bytes))),
         [REvt.readFormat atoms.HTML])
      else
        match available_text_format atoms fs with
        | some fmt =>
          (match linRequestRead env fmt atoms.DATA with
           | Except.error e => Except.error e
           | Except.ok bytes => Except.ok (some (Body.PlainText (env.lossy bytes))),
           [REvt.readFormat fmt])
        | none =>
          (Except.error (ErrorWrapper.ReadError ClipboardError.NoMatchingFormat), []))

/-- `LinuxObserver::extract_clipboard_content`: catalog built (input),
gatekeeper once, then the priority chain. -/
def linExtractContent (env : LinEnv) (atoms : LinAtoms) (fs : Formats)
    (customs : List Format) (maxSize : Option Nat) (gate : Bool) :
    Except ErrorWrapper (Option Body) × List Evt :=
  if gate then
    let x := linExtractBody env atoms fs customs maxSize
    (x.1, Evt.gate :: x.2.map Evt.r)
  else
    (Except.error ErrorWrapper.UserSkipped, [Evt.gate])

/-- `LinuxObserver::poll_clipboard`: unwrap the `ErrorWrapper` (note the
Linux extractor never yields `Ok(None)` itself; `NoMatchingFormat` arrives
as a read error from the final arm). -/
def linPollClipboard (env : LinEnv) (atoms : LinAtoms) (fs : Formats)
    (customs : List Format) (maxSize : Option Nat) (gate : Bool) :
    Except ClipboardError (Option Body) × List Evt :=
  match linExtractContent env atoms fs customs maxSize gate with
  | (Except.ok (some b), t) => (Except.ok (some b), t)
  | (Except.ok none, t) => (Except.ok none, t)
  | (Except.error ErrorWrapper.SizeTooLarge, t) => (Except.ok none, t)
  | (Except.error ErrorWrapper.UserSkipped, t) => (Except.ok none, t)
  | (Except.error ErrorWrapper.EmptyContent, t) => (Except.ok none, t)
  | (Except.error (ErrorWrapper.ReadError e), t) => (Except.error e, t)

/-! ## Spec-side priority order -/

/-- The documented priority tiers, highest first in `tierOrder`. -/
inductive Tier where
  | custom
  | png
  | raw
  | filelist
  | html
  | text
deriving DecidableEq, Repr

/-- The documented order: custom > encoded image > raw image > file list >
html > plain text. -/
def tierOrder : List Tier :=
  [Tier.custom, Tier.png, Tier.raw, Tier.filelist, Tier.html, Tier.text]

/-- The tier a `Body` variant belongs to. -/
def bodyTier : Body → Tier
  | Body.Custom _ _ => Tier.custom
  | Body.PngImage _ _ => Tier.png
  | Body.RawImage _ _ => Tier.raw
  | Body.FileList _ => Tier.filelist
  | Body.Html _ => Tier.html
  | Body.PlainText _ => Tier.text

/-- Eligibility of each tier on Windows, given the catalog and the
environment (the html / text tiers are probed by reading, not via the
catalog, in the Windows arm). -/
def winTierEligible (env : WinEnv) (fs : Formats) (customs : List Format) :
    Tier → Bool
  | Tier.custom => customs.any (fun f => fs.containsId f.id)
  | Tier.png => fs.containsId env.pngId
  | Tier.raw => fs.containsId CF_DIBV5 || fs.containsId CF_DIB
  | Tier.filelist => fs.containsId CF_HDROP
  | Tier.html => env.html.any (fun t => !t.isEmpty)
  | Tier.text => env.unicode.any (fun t => !t.isEmpty)

/-- The eligible tiers on Windows, in priority order. -/
def winEligibleTiers (env : WinEnv) (fs : Formats) (customs : List Format) : List Tier :=
  tierOrder.filter (winTierEligible env fs customs)

/-- Eligibility of each tier on macOS: catalog membership of the
corresponding pasteboard type. -/
def macTierEligible (fs : MacFormats) (customs : List MacFormat) : Tier → Bool
  | Tier.custom => customs.any (fun f => fs.containsFormat f.id)
  | Tier.png => fs.containsFormat macPngType
  | Tier.raw => fs.containsFormat macTiffType
  | Tier.filelist => fs.containsFormat macFileUrlType
  | Tier.html => fs.containsFormat macHtmlType
  | Tier.text => fs.containsFormat macStringType

/-- The eligible tiers on macOS, in priority order. -/
def macEligibleTiers (fs : MacFormats) (customs : List MacFormat) : List Tier :=
  tierOrder.filter (macTierEligible fs customs)

/-- Eligibility of each tier on Linux: catalog membership of the
corresponding atom; the raw-image tier does not exist in the Linux arm. -/
def linTierEligible (atoms : LinAtoms) (fs : Formats) (customs : List Format) :
    Tier → Bool
  | Tier.custom => customs.any (fun f => fs.containsId f.id)
  | Tier.png => fs.containsId atoms.PNG_MIME
  | Tier.raw => false
  | Tier.filelist => fs.containsId atoms.FILE_LIST
  | Tier.html => fs.containsId atoms.HTML
  | Tier.text => (available_text_format atoms fs).isSome

/-- The eligible tiers on Linux, in priority order. -/
def linEligibleTiers (atoms : LinAtoms) (fs : Formats) (customs : List Format) : List Tier :=
  tierOrder.filter (linTierEligible atoms fs customs)

/-- The reads the Windows arm may issue when tier `sel` is the one selected:
only the selected tier's formats (for a custom selection, the first
catalog-present custom format), the earlier html probe when text is
selected, and — exactly as the spec provides for image selections — the
file-list probe used as the image path hint. -/
def winAllowedEvt (env : WinEnv) (fs : Formats) (customs : List Format) :
    Tier → REvt → Prop
  | Tier.custom, e =>
    ∃ f, customs.find? (fun g => fs.containsId g.id) = some f ∧
      (e = REvt.sizeQuery f.id ∨ e = REvt.readFormat f.id)
  | Tier.png, e =>
    e = REvt.sizeQuery env.pngId ∨ e = REvt.readFormat env.pngId ∨ e = REvt.readFileList
  | Tier.raw, e =>
    e = REvt.sizeQuery CF_DIBV5 ∨ e = REvt.readFormat CF_DIBV5 ∨
    e = REvt.sizeQuery CF_DIB ∨ e = REvt.readFormat CF_DIB ∨ e = REvt.readFileList
  | Tier.filelist, e => e = REvt.readFileList
  | Tier.html, e => e = REvt.readHtml
  | Tier.text, e => e = REvt.readHtml ∨ e = REvt.readText

/-- The reads the macOS arm may issue when tier `sel` is selected. -/
def macAllowedEvt (fs : MacFormats) (customs : List MacFormat) :
    Tier → REvt → Prop
  | Tier.custom, e =>
    ∃ f, customs.find? (fun g => fs.containsFormat g.id) = some f ∧
      e = REvt.readName f.id
  | Tier.png, e => e = REvt.readName macPngType ∨ e = REvt.readFileList
  | Tier.raw, e => e = REvt.readName macTiffType ∨ e = REvt.readFileList
  | Tier.filelist, e => e = REvt.readFileList
  | Tier.html, e => e = REvt.readName macHtmlType
  | Tier.text, e => e = REvt.readName macHtmlType ∨ e = REvt.readName macStringType

/-- The reads the Linux arm may issue when tier `sel` is selected (the
`LENGTH` metadata probe and the staged-property size peek accompany the
size check of the selected format). -/
def linAllowedEvt (atoms : LinAtoms) (fs : Formats) (customs : List Format) :
    Tier → REvt → Prop
  | Tier.custom, e =>
    ∃ f, customs.find? (fun g => fs.containsId g.id) = some f ∧
      (e = REvt.readLength ∨ e = REvt.propSizeQuery ∨ e = REvt.readFormat f.id)
  | Tier.png, e =>
    e = REvt.readLength ∨ e = REvt.propSizeQuery ∨
    e = REvt.readFormat atoms.PNG_MIME ∨ e = REvt.readFormat atoms.FILE_LIST
  | Tier.raw, _ => False
  | Tier.filelist, e => e = REvt.readFormat atoms.FILE_LIST
  | Tier.html, e => e = REvt.readFormat atoms.HTML
  | Tier.text, e =>
    ∃ fmt, available_text_format atoms fs = some fmt ∧ e = REvt.readFormat fmt

/-! ## Well-behaved environments

The priority-order claims quantify over catalogs whose advertised formats
are actually readable (non-empty, within the configured limit, no native
failure); these records collect exactly those side conditions. -/

/-- Windows: every catalog format reads successfully within the limit, DIB
payloads decode, a present file list reads non-empty, and the html / text
probes never succeed with an empty string. -/
structure WinWB (env : WinEnv) (fs : Formats) (maxSize : Option Nat) : Prop where
  size_ok : ∀ id, fs.containsId id = true →
    ∃ s, env.size id = some s ∧ ∀ m, maxSize = some m → s ≤ m
  get_ok : ∀ id, fs.containsId id = true →
    ∃ bs, env.get id = Except.ok bs ∧ bs ≠ []
  dib_ok : ∀ bs, ∃ img, env.dib bs = Except.ok img
  files_ok : fs.containsId CF_HDROP = true →
    ∃ files, env.fileList = some files ∧ files ≠ []
  html_ne : env.html ≠ some ""
  text_ne : env.unicode ≠ some ""

/-- macOS: every catalog type has a non-empty payload within the limit,
TIFF payloads decode, a present file-URL list reads non-empty, and present
string types yield a non-empty string from the item loop. -/
structure MacWB (env : MacEnv) (fs : MacFormats) (maxSize : Option Nat) : Prop where
  data_ok : ∀ t, fs.containsFormat t = true →
    ∃ bs, env.data t = some bs ∧ bs ≠ [] ∧ ∀ m, maxSize = some m → bs.length ≤ m
  tiff_ok : ∀ bs, ∃ img, env.tiff bs = Except.ok img
  files_ok : fs.containsFormat macFileUrlType = true →
    ∃ files, env.fileUrls = some files ∧ files ≠ []
  string_ok : ∀ t, t = macHtmlType ∨ t = macStringType → fs.containsFormat t = true →
    ∃ items, env.items = some items ∧ ∃ s, macStringLoop t items = Except.ok (some s)

/-- Linux: every catalog format can be requested and read within the limit,
and when the owner advertises `LENGTH` the cheap probe reports a usable
in-budget size. -/
structure LinWB (env : LinEnv) (atoms : LinAtoms) (fs : Formats)
    (maxSize : Option Nat) : Prop where
  req_ok : ∀ fmt, fs.containsId fmt = true →
    ∃ prop, env.request fmt atoms.DATA = Except.ok prop ∧
      (∃ bytes, env.readProp prop = Except.ok bytes) ∧
      (∀ m, maxSize = some m →
        ∃ sz, env.propSize prop = Except.ok sz ∧ 0 < sz ∧ sz ≤ m)
  len_ok : ∀ m, maxSize = some m → fs.containsId atoms.LENGTH = true →
    ∃ prop sizeBytes, env.request atoms.LENGTH atoms.METADATA = Except.ok prop ∧
      env.readProp prop = Except.ok sizeBytes ∧ 4 ≤ sizeBytes.length ∧
      0 < u32FromLe sizeBytes ∧ u32FromLe sizeBytes ≤ m

/-! ## Spec-side INCR transfer runs (for the X11 state machine claim) -/

/-- A poll stream that delivers, all within the 3-second budget and without
poll failures, the non-empty chunks `ds` in order for property `prop`,
terminated by a zero-length chunk; polls without a matching `NEW_VALUE`
notification may be interleaved. -/
inductive GoodRun (prop : Nat) : List (Nat × IncrPoll) → List (List Nat) → Prop
  | done {t : Nat} {rest : List (Nat × IncrPoll)} :
      t ≤ DEFAULT_TIMEOUT_MS →
      GoodRun prop ((t, IncrPoll.notify prop true (Except.ok [])) :: rest) []
  | chunk {t : Nat} {d : List Nat} {rest : List (Nat × IncrPoll)} {ds : List (List Nat)} :
      t ≤ DEFAULT_TIMEOUT_MS → d ≠ [] → GoodRun prop rest ds →
      GoodRun prop ((t, IncrPoll.notify prop true (Except.ok d)) :: rest) (d :: ds)
  | skipNone {t : Nat} {rest : List (Nat × IncrPoll)} {ds : List (List Nat)} :
      t ≤ DEFAULT_TIMEOUT_MS → GoodRun prop rest ds →
      GoodRun prop ((t, IncrPoll.noEvent) :: rest) ds
  | skipOther {t : Nat} {rest : List (Nat × IncrPoll)} {ds : List (List Nat)} :
      t ≤ DEFAULT_TIMEOUT_MS → GoodRun prop rest ds →
      GoodRun prop ((t, IncrPoll.otherEvent) :: rest) ds
  | skipNotify {t atom : Nat} {nv : Bool} {c : Except String (List Nat)}
      {rest : List (Nat × IncrPoll)} {ds : List (List Nat)} :
      t ≤ DEFAULT_TIMEOUT_MS → ¬(atom = prop ∧ nv = true) → GoodRun prop rest ds →
      GoodRun prop ((t, IncrPoll.notify atom nv c) :: rest) ds

/-! ## Auxiliary spec-side definitions -/

/-- A queue that can accept one more item: open and below capacity. -/
def hasCapacity (q : SubQueue) : Prop :=
  q.closed = false ∧ q.buffer.length < q.capacity

/-- The queue after a successful `try_send`. -/
def enqueueMsg (q : SubQueue) (msg : ClipboardResult) : SubQueue :=
  { q with buffer := q.buffer ++ [msg] }

/-- No change-detection failure occurs in this stretch of loop inputs. -/
def noPollErrIn (l : List LoopEvt) : Prop :=
  ∀ m, LoopEvt.pollErr m ∉ l

/-- No cycle in this stretch carries a `MonitorFailed` read outcome (content
reads only produce `ReadError` / `NoMatchingFormat`). -/
def noMonChangeIn (l : List LoopEvt) : Prop :=
  ∀ m, LoopEvt.change (Except.error (ClipboardError.MonitorFailed m)) ∉ l

/-- The trace of one windows `extract_clipboard_format` hit: the size probe
(when a limit is configured) followed by the content read. -/
def winFmtTrace (id : Nat) : Option Nat → List REvt
  | some _ => [REvt.sizeQuery id, REvt.readFormat id]
  | none => [REvt.readFormat id]

/-- A catalog advertising the registered PNG format (id 100) and
`CF_UNICODETEXT` (id 13). -/
def fsC2 : Formats := ⟨[⟨100, "PNG"⟩, ⟨13, "CF_UNICODETEXT"⟩]⟩

/-- A Windows clipboard whose PNG payload reports 100 bytes while plain
text reads fine: a probe for the size-gating fall-through behaviour. -/
def envC2 : WinEnv where
  pngId := 100
  size := fun _ => some 100
  get := fun _ => Except.ok [1]
  fileList := none
  dib := fun _ => Except.error "no dib"
  html := none
  unicode := some "hi"
  openClip := Except.ok ()

/-- A catalog advertising only the custom format `application/x-test` (id 200). -/
def fsC3 : Formats := ⟨[⟨200, "application/x-test"⟩]⟩

/-- The monitored custom format of the empty-content probe. -/
def fmtC3 : Format := ⟨200, "application/x-test"⟩

/-- A Windows clipboard whose custom payload is present but has size zero,
while plain text reads fine: a probe for the empty-content behaviour. -/
def envC3 : WinEnv where
  pngId := 100
  size := fun _ => some 1
  get := fun _ => Except.ok []
  fileList := none
  dib := fun _ => Except.error "no dib"
  html := none
  unicode := some "hi"
  openClip := Except.ok ()

/-! # Theorems -/

theorem filterMap_ite {α β : Type} (l : List α) (p : α → Bool) (f : α → β) :
    l.filterMap (fun a => if p a then some (f a) else none) = (l.filter p).map f := by
  induction l with
  | nil => rfl
  | cons a l ih =>
    by_cases h : p a <;> simp [List.filterMap_cons, List.filter_cons, h, ih]

theorem filterMap_guard {α β : Type} (l : List α) (f : α → β) (p : β → Bool) :
    l.filterMap (fun a => if p (f a) then some (f a) else none) = (l.map f).filter p := by
  induction l with
  | nil => rfl
  | cons a l ih =>
    by_cases h : p (f a) <;> simp [List.filterMap_cons, List.filter_cons, h, ih]

/-- C10: the URI-list parser returns exactly the newline-separated lines
that begin with `file://` (after stripping one trailing carriage return),
with that marker removed and percent-decoded, kept only when the decoded
bytes are valid UTF-8, in input order — so a line without the `file://`
marker never contributes a path. -/
theorem uriList_parser_matches_spec (input : List Nat) :
    paths_from_uri_list input = specUriPaths input := by
  unfold paths_from_uri_list specUriPaths
  rw [show List.filterMap (fun line => stripHeader fileUriHeader line)
        (List.map stripCr (splitOnByte nlByte input))
      = (List.filter (fun line => fileUriHeader.isPrefixOf line)
          (List.map stripCr (splitOnByte nlByte input))).map
          (fun line => List.drop fileUriHeader.length line) from
    filterMap_ite _ _ _]
  rw [List.filterMap_map]
  exact filterMap_guard _ _ _

theorem trySend_success {q : SubQueue} {msg : ClipboardResult} (h : hasCapacity q) :
    trySend q msg = (enqueueMsg q msg, true) := by
  obtain ⟨h1, h2⟩ := h
  rw [trySend, if_neg]
  · rfl
  · intro hc
    rcases hc with hc | hc
    · rw [h1] at hc; cases hc
    · exact absurd h2 (Nat.not_lt.mpr hc)

theorem trySend_failure {q : SubQueue} {msg : ClipboardResult} (h : ¬ hasCapacity q) :
    trySend q msg = (q, false) := by
  rw [trySend, if_pos]
  by_contra hc
  push_neg at hc
  obtain ⟨hc1, hc2⟩ := hc
  exact h ⟨by simpa using hc1, hc2⟩

/-- C6: `send_all` performs exactly one non-blocking send per registered
sender, pointwise: a sender with queue capacity gets the value appended to
its queue, a full (or closed) queue is left untouched and its `StreamId`
lands in the diagnostic list — so one full queue never affects what any
other subscriber receives. -/
theorem sendAll_fanout_isolation (reg : SenderMap) (msg : ClipboardResult) :
    List.Forall₂
      (fun before after =>
        before.1 = after.1 ∧
        (hasCapacity before.2 → after.2 = enqueueMsg before.2 msg) ∧
        (¬ hasCapacity before.2 → after.2 = before.2))
      reg (send_all reg msg).1
    ∧ (∀ e ∈ reg, ¬ hasCapacity e.2 → e.1 ∈ (send_all reg msg).2)
    ∧ (∀ e ∈ reg, hasCapacity e.2 →
        (e.1, enqueueMsg e.2 msg) ∈ (send_all reg msg).1) := by
  refine ⟨?_, ?_, ?_⟩
  · rw [send_all]
    rw [List.forall₂_map_right_iff]
    rw [List.forall₂_same]
    intro e _
    refine ⟨rfl, ?_, ?_⟩
    · intro h; rw [trySend_success h]
    · intro h; rw [trySend_failure h]
  · intro e he h
    rw [send_all]
    refine List.mem_map.mpr ⟨e, List.mem_filter.mpr ⟨he, ?_⟩, rfl⟩
    rw [trySend_failure h]
    rfl
  · intro e he h
    rw [send_all]
    refine List.mem_map.mpr ⟨e, he, ?_⟩
    rw [trySend_success h]

theorem observeRun_append {pre : List LoopEvt} (suf : List LoopEvt)
    (h : noPollErrIn pre) :
    observeRun (pre ++ suf) = observeRun pre ++ observeRun suf := by
  induction pre with
  | nil => rfl
  | cons e rest ih =>
    have hrest : noPollErrIn rest := fun m hm => h m (List.mem_cons_of_mem _ hm)
    match e with
    | LoopEvt.pollErr m => exact absurd (List.mem_cons_self _ _) (h m)
    | LoopEvt.noChange => simpa [observeRun] using ih hrest
    | LoopEvt.change (Except.ok (some b)) => simpa [observeRun] using ih hrest
    | LoopEvt.change (Except.ok none) => simpa [observeRun] using ih hrest
    | LoopEvt.change (Except.error e') => simpa [observeRun] using ih hrest

theorem observeRun_no_monitor {pre : List LoopEvt} (h : noPollErrIn pre)
    (hm : noMonChangeIn pre) :
    ∀ r ∈ observeRun pre, isMonitorFailure r = false := by
  induction pre with
  | nil => intro r hr; cases hr
  | cons e rest ih =>
    have hrest : noPollErrIn rest := fun m hmem => h m (List.mem_cons_of_mem _ hmem)
    have hmrest : noMonChangeIn rest := fun m hmem => hm m (List.mem_cons_of_mem _ hmem)
    match e with
    | LoopEvt.pollErr m => exact absurd (List.mem_cons_self _ _) (h m)
    | LoopEvt.noChange => simpa [observeRun] using ih hrest hmrest
    | LoopEvt.change (Except.ok (some b)) =>
      intro r hr
      rcases List.mem_cons.mp (by simpa [observeRun] using hr) with rfl | hr'
      · rfl
      · exact ih hrest hmrest r hr'
    | LoopEvt.change (Except.ok none) => simpa [observeRun] using ih hrest hmrest
    | LoopEvt.change (Except.error e') =>
      intro r hr
      rcases List.mem_cons.mp (by simpa [observeRun] using hr) with rfl | hr'
      · match e' with
        | ClipboardError.MonitorFailed m =>
          exact absurd (List.mem_cons_self _ _) (hm m)
        | ClipboardError.ReadError m => rfl
        | ClipboardError.NoMatchingFormat => rfl
      · exact ih hrest hmrest r hr'

/-- C7: a failure of the change-detection poll publishes exactly one
`MonitorFailed` and permanently ends the loop — the published sequence is
what the preceding healthy cycles published, then the single monitor
failure, and nothing from any later iteration; a content-read failure, by
contrast, is published for its one cycle and the loop continues with the
remaining iterations. -/
theorem observe_monitor_failure_fatal :
    (∀ (pre : List LoopEvt) (m : String) (post : List LoopEvt), noPollErrIn pre →
      observeRun (pre ++ LoopEvt.pollErr m :: post) =
        observeRun pre ++ [Except.error (ClipboardError.MonitorFailed m)]) ∧
    (∀ (pre : List LoopEvt) (m : String) (post : List LoopEvt),
      noPollErrIn pre → noMonChangeIn pre →
      (observeRun (pre ++ LoopEvt.pollErr m :: post)).countP
        (fun r => isMonitorFailure r) = 1) ∧
    (∀ (e : ClipboardError) (rest : List LoopEvt),
      observeRun (LoopEvt.change (Except.error e) :: rest) =
        Except.error e :: observeRun rest) ∧
    (∀ (b : Body) (rest : List LoopEvt),
      observeRun (LoopEvt.change (Except.ok (some b)) :: rest) =
        Except.ok b :: observeRun rest) := by
  refine ⟨?_, ?_, ?_, ?_⟩
  · intro pre m post h
    rw [observeRun_append _ h]
    rfl
  · intro pre m post h hm
    rw [observeRun_append _ h, List.countP_append]
    have h0 : (observeRun pre).countP (fun r => isMonitorFailure r) = 0 := by
      rw [List.countP_eq_zero]
      intro r hr
      simp [observeRun_no_monitor h hm r hr]
    rw [h0]
    rfl
  · intro e rest; rfl
  · intro b rest; rfl

/-- Witness for the monitor-failure claim at a concrete run: two healthy
cycles, then the poll failure, then iterations that are never reached. -/
theorem observe_monitor_failure_fatal_witness :
    observeRun
        ([LoopEvt.change (Except.ok (some (Body.PlainText "hello"))),
          LoopEvt.change (Except.error (ClipboardError.ReadError "bad read")),
          LoopEvt.noChange] ++
          LoopEvt.pollErr "socket gone" ::
            [LoopEvt.change (Except.ok (some (Body.Html "late")))]) =
      [Except.ok (Body.PlainText "hello"),
       Except.error (ClipboardError.ReadError "bad read"),
       Except.error (ClipboardError.MonitorFailed "socket gone")] := by
  rw [observe_monitor_failure_fatal.1 _ _ _ (by intro m; simp)]
  rfl

theorem closeQueue_preserves_buffers (reg : SenderMap) (id : Nat) :
    ((closeOwnQueue reg id).filter (fun e => e.1 = id)).map (fun e => e.2.buffer)
      = (reg.filter (fun e => e.1 = id)).map (fun e => e.2.buffer) := by
  induction reg with
  | nil => rfl
  | cons e rest ih =>
    simp only [closeOwnQueue, List.map_cons] at ih ⊢
    by_cases h : e.1 = id
    · simp [List.filter_cons, h, ih]
    · simp [List.filter_cons, h, ih]

/-- C8: disposing a stream closes its queue, then drains every item that
was still buffered for it, and only then removes its entry; afterwards the
entry is gone, so a subsequent `send_all` neither delivers to that id nor
records a diagnostic for it. -/
theorem stream_disposal_unregisters (reg : SenderMap) (id : Nat) :
    (disposeStream reg id).2.2 =
      [DisposeStep.closeQueue, DisposeStep.drainQueue, DisposeStep.unregister] ∧
    (disposeStream reg id).2.1 =
      ((reg.filter (fun e => e.1 = id)).map (fun e => e.2.buffer)).flatten ∧
    (∀ e ∈ (disposeStream reg id).1, e.1 ≠ id) ∧
    (∀ msg, (∀ e ∈ (send_all (disposeStream reg id).1 msg).1, e.1 ≠ id) ∧
      id ∉ (send_all (disposeStream reg id).1 msg).2) := by
  refine ⟨rfl, ?_, ?_, ?_⟩
  · show (drainOwnQueue (closeOwnQueue reg id) id).2 = _
    simp only [drainOwnQueue]
    rw [closeQueue_preserves_buffers]
  · intro e he
    have := List.mem_filter.mp he
    simpa using this.2
  · intro msg
    constructor
    · intro e he
      rw [send_all] at he
      obtain ⟨a, ha, rfl⟩ := List.mem_map.mp he
      have := List.mem_filter.mp ha
      simpa using this.2
    · intro hmem
      rw [send_all] at hmem
      obtain ⟨a, ha, haeq⟩ := List.mem_map.mp hmem
      have := List.mem_filter.mp (List.mem_filter.mp ha).1
      exact absurd haeq (by simpa using this.2)

theorem incrLoop_goodRun {prop : Nat} {polls : List (Nat × IncrPoll)}
    {ds : List (List Nat)} (h : GoodRun prop polls ds) :
    ∀ buf, incrLoop prop polls buf =
      (Except.ok (buf ++ ds.flatten),
       ds.map XAct.readChunk ++ [XAct.readChunk []]) := by
  induction h with
  | @done t rest ht =>
    intro buf
    simp [incrLoop, Nat.not_lt.mpr ht]
  | @chunk t d rest ds ht hd hrun ih =>
    intro buf
    have hde : d.isEmpty = false := by
      cases d with
      | nil => exact absurd rfl hd
      | cons a l => rfl
    simp [incrLoop, Nat.not_lt.mpr ht, hde, ih]
  | @skipNone t rest ds ht hrun ih =>
    intro buf
    simp [incrLoop, Nat.not_lt.mpr ht, ih]
  | @skipOther t rest ds ht hrun ih =>
    intro buf
    simp [incrLoop, Nat.not_lt.mpr ht, ih]
  | @skipNotify t atom nv c rest ds ht hne hrun ih =>
    intro buf
    simp only [incrLoop, Nat.not_lt.mpr ht, if_false]
    rw [if_neg hne]
    exact ih buf

/-- C9: the X11 property reader.  For an INCR-typed staged property it
deletes the marker first and then collects exactly the delivered non-empty
chunks, in arrival order, stopping at the zero-length chunk and returning
their concatenation; a failure to delete the marker aborts before any chunk
is read; a non-INCR property is read and then explicitly deleted; and a
stage whose elapsed time exceeds the 3-second budget is a fatal read error,
not a retry. -/
theorem x11_property_reader_spec :
    (∀ (atoms : LinAtoms) (prop : Nat) (reply : PropReply)
        (polls : List (Nat × IncrPoll)) (ds : List (List Nat))
        (dd : Except String Unit),
      reply.type_ = atoms.INCR → GoodRun prop polls ds →
      read_property_data atoms prop (Except.ok reply) (Except.ok ()) polls dd =
        (Except.ok ds.flatten,
         XAct.deleteMarker :: (ds.map XAct.readChunk ++ [XAct.readChunk []]))) ∧
    (∀ (atoms : LinAtoms) (prop : Nat) (reply : PropReply)
        (polls : List (Nat × IncrPoll)) (m : String) (dd : Except String Unit),
      reply.type_ = atoms.INCR →
      read_property_data atoms prop (Except.ok reply) (Except.error m) polls dd =
        (Except.error (ErrorWrapper.ReadError (ClipboardError.ReadError m)),
         [XAct.deleteMarker])) ∧
    (∀ (atoms : LinAtoms) (prop : Nat) (reply : PropReply)
        (polls : List (Nat × IncrPoll)) (dm : Except String Unit),
      reply.type_ ≠ atoms.INCR →
      read_property_data atoms prop (Except.ok reply) dm polls (Except.ok ()) =
        (Except.ok reply.value, [XAct.readDirect reply.value, XAct.deleteDirect])) ∧
    (∀ (prop t : Nat) (p : IncrPoll) (rest : List (Nat × IncrPoll)) (buf : List Nat),
      DEFAULT_TIMEOUT_MS < t →
      incrLoop prop ((t, p) :: rest) buf =
        (Except.error (ErrorWrapper.ReadError
          (ClipboardError.ReadError "Timeout during INCR transfer")), [])) := by
  refine ⟨?_, ?_, ?_, ?_⟩
  · intro atoms prop reply polls ds dd hty hrun
    simp [read_property_data, hty, incrLoop_goodRun hrun]
  · intro atoms prop reply polls m dd hty
    simp [read_property_data, hty]
  · intro atoms prop reply polls dm hty
    simp [read_property_data, hty]
  · intro prop t p rest buf ht
    simp [incrLoop, ht]

/-- Witness for the X11 property reader at a concrete run: two chunks
`[1, 2]` and `[3]` with interleaved unrelated polls, then the empty
terminator; the result is the concatenation `[1, 2, 3]` after the marker
delete. -/
theorem x11_property_reader_spec_witness :
    read_property_data
        ⟨1, 2, 3, 4, 5, 6, 7, 8, 9, 42, 11, 12, 13, 14, 15, 16⟩ 77
        (Except.ok ⟨42, []⟩) (Except.ok ())
        [(10, IncrPoll.notify 77 true (Except.ok [1, 2])),
         (20, IncrPoll.noEvent),
         (30, IncrPoll.notify 99 true (Except.ok [9])),
         (40, IncrPoll.notify 77 true (Except.ok [3])),
         (50, IncrPoll.notify 77 true (Except.ok []))]
        (Except.ok ()) =
      (Except.ok [1, 2, 3],
       [XAct.deleteMarker, XAct.readChunk [1, 2], XAct.readChunk [3],
        XAct.readChunk []]) := by
  rw [x11_property_reader_spec.1 _ _ _ _ [[1, 2], [3]] _ rfl
    (GoodRun.chunk (by decide) (by decide)
      (GoodRun.skipNone (by decide)
        (GoodRun.skipNotify (by decide) (by decide)
          (GoodRun.chunk (by decide) (by decide)
            (GoodRun.done (by decide))))))]
  rfl

/-- Witness for the fan-out claim at a concrete registry: subscriber 0 has
room and receives the published value; subscriber 1 is full, keeps its old
queue, and gets a diagnostic — delivery to 0 unaffected. -/
theorem sendAll_fanout_isolation_witness :
    ((0 : Nat), enqueueMsg ⟨2, [], false⟩ (Except.ok (Body.PlainText "hi"))) ∈
        (send_all [(0, ⟨2, [], false⟩), (1, ⟨1, [Except.ok (Body.Html "x")], false⟩)]
          (Except.ok (Body.PlainText "hi"))).1 ∧
      (1 : Nat) ∈
        (send_all [(0, ⟨2, [], false⟩), (1, ⟨1, [Except.ok (Body.Html "x")], false⟩)]
          (Except.ok (Body.PlainText "hi"))).2 := by
  constructor
  · exact (sendAll_fanout_isolation _ _).2.2 _ (List.mem_cons_self _ _)
      ⟨rfl, by decide⟩
  · exact (sendAll_fanout_isolation _ _).2.1 _
      (List.mem_cons_of_mem _ (List.mem_cons_self _ _))
      (by intro h; exact absurd h.2 (by decide))

/-- Witness for the disposal claim at a concrete registry: after disposing
stream 5, its entry is gone and a publish attempts no delivery to it. -/
theorem stream_disposal_unregisters_witness :
    (∀ e ∈ (disposeStream [((5 : Nat), (⟨3, [Except.ok (Body.Html "a")], false⟩ : SubQueue))] 5).1,
        e.1 ≠ 5) ∧
      (5 : Nat) ∉
        (send_all (disposeStream [((5 : Nat), (⟨3, [Except.ok (Body.Html "a")], false⟩ : SubQueue))] 5).1
          (Except.ok (Body.PlainText "m"))).2 :=
  ⟨(stream_disposal_unregisters _ _).2.2.1,
   ((stream_disposal_unregisters _ _).2.2.2 _).2⟩

/-- Witness for the URI-list parser claim at a concrete payload:
`file:///tmp/a%20b\r\nhttp://x\nfile:///q\n`. -/
theorem uriList_parser_matches_spec_witness :
    paths_from_uri_list
        [102, 105, 108, 101, 58, 47, 47, 47, 116, 109, 112, 47, 97, 37, 50, 48, 98, 13, 10,
         104, 116, 116, 112, 58, 47, 47, 120, 10,
         102, 105, 108, 101, 58, 47, 47, 47, 113, 10] =
      specUriPaths
        [102, 105, 108, 101, 58, 47, 47, 47, 116, 109, 112, 47, 97, 37, 50, 48, 98, 13, 10,
         104, 116, 116, 112, 58, 47, 47, 120, 10,
         102, 105, 108, 101, 58, 47, 47, 47, 113, 10] :=
  uriList_parser_matches_spec _

theorem winExtractFormat_absent {env : WinEnv} {fs : Formats} {id : Nat}
    {maxSize : Option Nat} (h : fs.containsId id = false) :
    winExtractFormat env fs id maxSize = (Except.ok none, []) := by
  simp [winExtractFormat, h]

theorem winExtractFormat_present {env : WinEnv} {fs : Formats} {id : Nat}
    {maxSize : Option Nat} {bs : List Nat}
    (h : fs.containsId id = true) (hget : env.get id = Except.ok bs) (hne : bs ≠ [])
    (hsz : ∀ m, maxSize = some m → ∃ s, env.size id = some s ∧ s ≤ m) :
    winExtractFormat env fs id maxSize = (Except.ok (some bs), winFmtTrace id maxSize) := by
  have hbe : bs.isEmpty = false := by
    cases bs with
    | nil => exact absurd rfl hne
    | cons a l => rfl
  cases maxSize with
  | none => simp [winExtractFormat, h, winGetData, hget, hbe, winFmtTrace]
  | some m =>
    obtain ⟨s, hs, hsle⟩ := hsz m rfl
    simp [winExtractFormat, h, hs, Nat.not_lt.mpr hsle, andT, winGetData, hget,
      hbe, winFmtTrace]

theorem winExtractCustoms_none {env : WinEnv} {fs : Formats} {customs : List Format}
    {maxSize : Option Nat} (h : ∀ f ∈ customs, fs.containsId f.id = false) :
    winExtractCustoms env fs customs maxSize = (Except.ok none, []) := by
  induction customs with
  | nil => rfl
  | cons f rest ih =>
    have h1 := h f (List.mem_cons_self _ _)
    simp [winExtractCustoms, winExtractFormat_absent h1, andT,
      ih (fun g hg => h g (List.mem_cons_of_mem _ hg))]

theorem winExtractCustoms_first {env : WinEnv} {fs : Formats} {customs : List Format}
    {maxSize : Option Nat} {f : Format}
    (wb : WinWB env fs maxSize)
    (hfind : customs.find? (fun g => fs.containsId g.id) = some f) :
    ∃ bs, env.get f.id = Except.ok bs ∧
      winExtractCustoms env fs customs maxSize =
        (Except.ok (some (Body.Custom f.name bs)), winFmtTrace f.id maxSize) := by
  induction customs with
  | nil => cases hfind
  | cons g rest ih =>
    by_cases hg : fs.containsId g.id = true
    · rw [List.find?_cons] at hfind
      simp only [hg] at hfind
      obtain rfl : g = f := by simpa using hfind
      obtain ⟨bs, hbs, hne⟩ := wb.get_ok g.id hg
      obtain ⟨s, hs, hsle⟩ := wb.size_ok g.id hg
      refine ⟨bs, hbs, ?_⟩
      simp [winExtractCustoms,
        winExtractFormat_present hg hbs hne (fun m hm => ⟨s, hs, hsle m hm⟩), andT]
    · rw [List.find?_cons] at hfind
      simp only [(by simpa using hg : fs.containsId g.id = false)] at hfind
      obtain ⟨bs, hbs, hrest⟩ := ih hfind
      refine ⟨bs, hbs, ?_⟩
      simp [winExtractCustoms, winExtractFormat_absent (by simpa using hg), andT, hrest]

theorem winExtractFilesList_absent {env : WinEnv} {fs : Formats}
    (h : fs.containsId CF_HDROP = false) :
    winExtractFilesList env fs = (Except.ok none, []) := by
  simp [winExtractFilesList, h]

theorem winExtractFilesList_present {env : WinEnv} {fs : Formats} {files : List BPath}
    (h : fs.containsId CF_HDROP = true) (hf : env.fileList = some files)
    (hne : files ≠ []) :
    winExtractFilesList env fs = (Except.ok (some files), [REvt.readFileList]) := by
  have hbe : files.isEmpty = false := by
    cases files with
    | nil => exact absurd rfl hne
    | cons a l => rfl
  simp [winExtractFilesList, h, hf, hbe]

theorem winImagePath_absent {env : WinEnv} {fs : Formats}
    (h : fs.containsId CF_HDROP = false) :
    winImagePath env fs = (Except.ok none, []) := by
  simp [winImagePath, winExtractFilesList_absent h, andT, Option.filter]

theorem winImagePath_present {env : WinEnv} {fs : Formats} {files : List BPath}
    (h : fs.containsId CF_HDROP = true) (hf : env.fileList = some files)
    (hne : files ≠ []) :
    winImagePath env fs =
      (Except.ok (if files.length = 1 then some files.headI else none),
       [REvt.readFileList]) := by
  by_cases h1 : files.length = 1 <;>
    simp [winImagePath, winExtractFilesList_present h hf hne, andT, Option.filter, h1]

theorem winExtractRawImage_absent {env : WinEnv} {fs : Formats} {maxSize : Option Nat}
    (h5 : fs.containsId CF_DIBV5 = false) (h8 : fs.containsId CF_DIB = false) :
    winExtractRawImage env fs maxSize = (Except.ok none, []) := by
  simp [winExtractRawImage, winExtractFormat_absent h5, winExtractFormat_absent h8, andT]

theorem winExtractRawImage_present {env : WinEnv} {fs : Formats} {maxSize : Option Nat}
    (wb : WinWB env fs maxSize)
    (h : fs.containsId CF_DIBV5 = true ∨ fs.containsId CF_DIB = true) :
    ∃ img tr, winExtractRawImage env fs maxSize = (Except.ok (some img), tr) ∧
      ∀ e ∈ tr, e = REvt.sizeQuery CF_DIBV5 ∨ e = REvt.readFormat CF_DIBV5 ∨
        e = REvt.sizeQuery CF_DIB ∨ e = REvt.readFormat CF_DIB := by
  by_cases h5 : fs.containsId CF_DIBV5 = true
  · obtain ⟨bs, hbs, hne⟩ := wb.get_ok _ h5
    obtain ⟨s, hs, hsle⟩ := wb.size_ok _ h5
    obtain ⟨img, himg⟩ := wb.dib_ok bs
    refine ⟨img, winFmtTrace CF_DIBV5 maxSize, ?_, ?_⟩
    · simp [winExtractRawImage,
        winExtractFormat_present h5 hbs hne (fun m hm => ⟨s, hs, hsle m hm⟩), andT,
        winDecodeDib, himg]
    · intro e he
      cases maxSize <;> simp [winFmtTrace] at he <;> tauto
  · have h8 : fs.containsId CF_DIB = true := h.resolve_left h5
    obtain ⟨bs, hbs, hne⟩ := wb.get_ok _ h8
    obtain ⟨s, hs, hsle⟩ := wb.size_ok _ h8
    obtain ⟨img, himg⟩ := wb.dib_ok bs
    refine ⟨img, winFmtTrace CF_DIB maxSize, ?_, ?_⟩
    · simp [winExtractRawImage, winExtractFormat_absent (by simpa using h5),
        winExtractFormat_present h8 hbs hne (fun m hm => ⟨s, hs, hsle m hm⟩), andT,
        winDecodeDib, himg]
    · intro e he
      cases maxSize <;> simp [winFmtTrace] at he <;> tauto

theorem winExtractBody_priority {env : WinEnv} {fs : Formats} {customs : List Format}
    {maxSize : Option Nat} (wb : WinWB env fs maxSize)
    (hne : winEligibleTiers env fs customs ≠ []) :
    ∃ b tr, winExtractBody env fs customs maxSize = (Except.ok (some b), tr) ∧
      (winEligibleTiers env fs customs).head? = some (bodyTier b) ∧
      (∀ e ∈ tr, winAllowedEvt env fs customs (bodyTier b) e) ∧
      (bodyTier b = Tier.custom →
        ∃ g bs, customs.find? (fun g => fs.containsId g.id) = some g ∧
          b = Body.Custom g.name bs) := by
  by_cases hc : customs.any (fun f => fs.containsId f.id) = true
  · have hsome : (customs.find? (fun g => fs.containsId g.id)).isSome := by
      rw [List.find?_isSome]
      obtain ⟨x, hx, hpx⟩ := List.any_eq_true.mp hc
      exact ⟨x, hx, hpx⟩
    obtain ⟨g, hgfind⟩ := Option.isSome_iff_exists.mp hsome
    obtain ⟨bs, hbs, hcust⟩ := winExtractCustoms_first wb hgfind
    refine ⟨Body.Custom g.name bs, winFmtTrace g.id maxSize, ?_, ?_, ?_, ?_⟩
    · simp [winExtractBody, hcust, andT]
    · simp [winEligibleTiers, tierOrder, List.filter_cons, winTierEligible, hc, bodyTier]
    · intro e he
      have hev : e = REvt.sizeQuery g.id ∨ e = REvt.readFormat g.id := by
        cases maxSize <;> simp [winFmtTrace] at he <;> tauto
      exact ⟨g, hgfind, hev⟩
    · intro _
      exact ⟨g, bs, hgfind, rfl⟩
  · have hc' : customs.any (fun f => fs.containsId f.id) = false := by simpa using hc
    have hcn : ∀ f ∈ customs, fs.containsId f.id = false := by
      intro f hf
      by_contra hcon
      have : customs.any (fun f => fs.containsId f.id) = true :=
        List.any_eq_true.mpr ⟨f, hf, by simpa using hcon⟩
      rw [this] at hc'
      cases hc'
    have hcust := @winExtractCustoms_none env fs customs maxSize hcn
    by_cases hp : fs.containsId env.pngId = true
    · obtain ⟨bs, hbs, hbne⟩ := wb.get_ok _ hp
      obtain ⟨s, hs, hsle⟩ := wb.size_ok _ hp
      have hfmt := winExtractFormat_present hp hbs hbne (fun m hm => ⟨s, hs, hsle m hm⟩)
      by_cases hh : fs.containsId CF_HDROP = true
      · obtain ⟨files, hfl, hflne⟩ := wb.files_ok hh
        have hpath := winImagePath_present hh hfl hflne
        refine ⟨Body.PngImage bs (if files.length = 1 then some files.headI else none),
          winFmtTrace env.pngId maxSize ++ [REvt.readFileList], ?_, ?_, ?_, ?_⟩
        · simp [winExtractBody, hcust, hfmt, hpath, andT]
        · simp [winEligibleTiers, tierOrder, List.filter_cons, winTierEligible, hc', hp,
            bodyTier]
        · intro e he
          simp only [bodyTier, winAllowedEvt]
          rcases List.mem_append.mp he with h1 | h1
          · have hev : e = REvt.sizeQuery env.pngId ∨ e = REvt.readFormat env.pngId := by
              cases maxSize <;> simp [winFmtTrace] at h1 <;> tauto
            tauto
          · simp at h1
            subst h1
            tauto
        · intro hct
          simp [bodyTier] at hct
      · have hh' : fs.containsId CF_HDROP = false := by simpa using hh
        have hpath := @winImagePath_absent env fs hh'
        refine ⟨Body.PngImage bs none, winFmtTrace env.pngId maxSize, ?_, ?_, ?_, ?_⟩
        · simp [winExtractBody, hcust, hfmt, hpath, andT]
        · simp [winEligibleTiers, tierOrder, List.filter_cons, winTierEligible, hc', hp,
            bodyTier]
        · intro e he
          have hev : e = REvt.sizeQuery env.pngId ∨ e = REvt.readFormat env.pngId := by
            cases maxSize <;> simp [winFmtTrace] at he <;> tauto
          simp only [bodyTier, winAllowedEvt]
          tauto
        · intro hct
          simp [bodyTier] at hct
    · have hp' : fs.containsId env.pngId = false := by simpa using hp
      have hfmtp := @winExtractFormat_absent env fs env.pngId maxSize hp'
      by_cases hr : (fs.containsId CF_DIBV5 || fs.containsId CF_DIB) = true
      · obtain ⟨img, rtr, hraw, hrtr⟩ :=
          @winExtractRawImage_present env fs maxSize wb (Bool.or_eq_true_iff.mp hr)
        by_cases hh : fs.containsId CF_HDROP = true
        · obtain ⟨files, hfl, hflne⟩ := wb.files_ok hh
          have hpath := winImagePath_present hh hfl hflne
          refine ⟨Body.RawImage img (if files.length = 1 then some files.headI else none),
            rtr ++ [REvt.readFileList], ?_, ?_, ?_, ?_⟩
          · simp [winExtractBody, hcust, hfmtp, hraw, hpath, andT]
          · simp [winEligibleTiers, tierOrder, List.filter_cons, winTierEligible, hc', hp',
              hr, bodyTier]
          · intro e he
            simp only [bodyTier, winAllowedEvt]
            rcases List.mem_append.mp he with h1 | h1
            · have := hrtr e h1
              tauto
            · simp at h1
              subst h1
              tauto
          · intro hct
            simp [bodyTier] at hct
        · have hh' : fs.containsId CF_HDROP = false := by simpa using hh
          have hpath := @winImagePath_absent env fs hh'
          refine ⟨Body.RawImage img none, rtr, ?_, ?_, ?_, ?_⟩
          · simp [winExtractBody, hcust, hfmtp, hraw, hpath, andT]
          · simp [winEligibleTiers, tierOrder, List.filter_cons, winTierEligible, hc', hp',
              hr, bodyTier]
          · intro e he
            have := hrtr e he
            simp only [bodyTier, winAllowedEvt]
            tauto
          · intro hct
            simp [bodyTier] at hct
      · have hr' : (fs.containsId CF_DIBV5 || fs.containsId CF_DIB) = false := by
          simpa using hr
        obtain ⟨h5, h8⟩ := Bool.or_eq_false_iff.mp hr'
        have hrawn := @winExtractRawImage_absent env fs maxSize h5 h8
        by_cases hh : fs.containsId CF_HDROP = true
        · obtain ⟨files, hfl, hflne⟩ := wb.files_ok hh
          have hfll := winExtractFilesList_present hh hfl hflne
          refine ⟨Body.FileList files, [REvt.readFileList], ?_, ?_, ?_, ?_⟩
          · simp [winExtractBody, hcust, hfmtp, hrawn, hfll, andT]
          · simp [winEligibleTiers, tierOrder, List.filter_cons, winTierEligible, hc', hp',
              hr', hh, bodyTier]
          · intro e he
            simp at he
            subst he
            simp [bodyTier, winAllowedEvt]
          · intro hct
            simp [bodyTier] at hct
        · have hh' : fs.containsId CF_HDROP = false := by simpa using hh
          have hfln := @winExtractFilesList_absent env fs hh'
          cases hhtml : env.html with
          | some t =>
            have htne : t ≠ "" := fun h => wb.html_ne (by rw [hhtml, h])
            have hte : t.isEmpty = false := by
              cases hbool : t.isEmpty with
              | false => rfl
              | true => exact absurd ((String.isEmpty_iff t).mp hbool) htne
            refine ⟨Body.Html t, [REvt.readHtml], ?_, ?_, ?_, ?_⟩
            · simp [winExtractBody, hcust, hfmtp, hrawn, hfln, winHtmlText, hhtml, hte,
                andT]
            · simp [winEligibleTiers, tierOrder, List.filter_cons, winTierEligible, hc',
                hp', hr', hh', hhtml, hte, bodyTier, Option.any]
            · intro e he
              simp at he
              subst he
              simp [bodyTier, winAllowedEvt]
            · intro hct
              simp [bodyTier] at hct
          | none =>
            cases huni : env.unicode with
            | some t =>
              have htne : t ≠ "" := fun h => wb.text_ne (by rw [huni, h])
              have hte : t.isEmpty = false := by
                cases hbool : t.isEmpty with
                | false => rfl
                | true => exact absurd ((String.isEmpty_iff t).mp hbool) htne
              refine ⟨Body.PlainText t, [REvt.readHtml, REvt.readText], ?_, ?_, ?_, ?_⟩
              · simp [winExtractBody, hcust, hfmtp, hrawn, hfln, winHtmlText, hhtml, huni,
                  hte, andT]
              · simp [winEligibleTiers, tierOrder, List.filter_cons, winTierEligible, hc',
                  hp', hr', hh', hhtml, huni, hte, bodyTier, Option.any]
              · intro e he
                simp at he
                simp only [bodyTier, winAllowedEvt]
                tauto
              · intro hct
                simp [bodyTier] at hct
            | none =>
              exfalso
              apply hne
              simp [winEligibleTiers, tierOrder, List.filter_cons, winTierEligible, hc',
                hp', h5, h8, hh', hhtml, huni, Option.any]

theorem macExtractFormat_absent {env : MacEnv} {fs : MacFormats} {t : String}
    {maxSize : Option Nat} (h : fs.containsFormat t = false) :
    macExtractFormat env fs t maxSize = (Except.ok none, []) := by
  simp [macExtractFormat, h]

theorem macExtractFormat_present {env : MacEnv} {fs : MacFormats} {t : String}
    {maxSize : Option Nat} {bs : List Nat}
    (h : fs.containsFormat t = true) (hd : env.data t = some bs) (hne : bs ≠ [])
    (hlen : ∀ m, maxSize = some m → bs.length ≤ m) :
    macExtractFormat env fs t maxSize = (Except.ok (some bs), [REvt.readName t]) := by
  have h0 : bs.length ≠ 0 := by simpa using hne
  cases maxSize with
  | none => simp [macExtractFormat, h, hd, h0]
  | some m => simp [macExtractFormat, h, hd, h0, Nat.not_lt.mpr (hlen m rfl)]

theorem macExtractCustoms_none {env : MacEnv} {fs : MacFormats}
    {customs : List MacFormat} {maxSize : Option Nat}
    (h : ∀ f ∈ customs, fs.containsFormat f.id = false) :
    macExtractCustoms env fs customs maxSize = (Except.ok none, []) := by
  induction customs with
  | nil => rfl
  | cons f rest ih =>
    have h1 := h f (List.mem_cons_self _ _)
    simp [macExtractCustoms, macExtractFormat_absent h1, andT,
      ih (fun g hg => h g (List.mem_cons_of_mem _ hg))]

theorem macExtractCustoms_first {env : MacEnv} {fs : MacFormats}
    {customs : List MacFormat} {maxSize : Option Nat} {f : MacFormat}
    (wb : MacWB env fs maxSize)
    (hfind : customs.find? (fun g => fs.containsFormat g.id) = some f) :
    ∃ bs, env.data f.id = some bs ∧
      macExtractCustoms env fs customs maxSize =
        (Except.ok (some (Body.Custom f.name bs)), [REvt.readName f.id]) := by
  induction customs with
  | nil => cases hfind
  | cons g rest ih =>
    by_cases hg : fs.containsFormat g.id = true
    · rw [List.find?_cons] at hfind
      simp only [hg] at hfind
      obtain rfl : g = f := by simpa using hfind
      obtain ⟨bs, hbs, hne, hlen⟩ := wb.data_ok g.id hg
      refine ⟨bs, hbs, ?_⟩
      simp [macExtractCustoms, macExtractFormat_present hg hbs hne hlen, andT]
    · rw [List.find?_cons] at hfind
      simp only [(by simpa using hg : fs.containsFormat g.id = false)] at hfind
      obtain ⟨bs, hbs, hrest⟩ := ih hfind
      refine ⟨bs, hbs, ?_⟩
      simp [macExtractCustoms, macExtractFormat_absent (by simpa using hg), andT, hrest]

theorem macExtractFilesList_absent {env : MacEnv} {fs : MacFormats}
    (h : fs.containsFormat macFileUrlType = false) :
    macExtractFilesList env fs = (Except.ok none, []) := by
  simp [macExtractFilesList, h]

theorem macExtractFilesList_present {env : MacEnv} {fs : MacFormats}
    {files : List BPath} (h : fs.containsFormat macFileUrlType = true)
    (hf : env.fileUrls = some files) (hne : files ≠ []) :
    macExtractFilesList env fs = (Except.ok (some files), [REvt.readFileList]) := by
  have hbe : files.isEmpty = false := by
    cases files with
    | nil => exact absurd rfl hne
    | cons a l => rfl
  simp [macExtractFilesList, h, hf, hbe]

theorem macImagePath_absent {env : MacEnv} {fs : MacFormats}
    (h : fs.containsFormat macFileUrlType = false) :
    macImagePath env fs = (Except.ok none, []) := by
  simp [macImagePath, macExtractFilesList_absent h, andT, Option.filter]

theorem macImagePath_present {env : MacEnv} {fs : MacFormats} {files : List BPath}
    (h : fs.containsFormat macFileUrlType = true) (hf : env.fileUrls = some files)
    (hne : files ≠ []) :
    macImagePath env fs =
      (Except.ok (if files.length = 1 then some files.headI else none),
       [REvt.readFileList]) := by
  by_cases h1 : files.length = 1 <;>
    simp [macImagePath, macExtractFilesList_present h hf hne, andT, Option.filter, h1]

theorem macExtractRawImage_absent {env : MacEnv} {fs : MacFormats} {maxSize : Option Nat}
    (h : fs.containsFormat macTiffType = false) :
    macExtractRawImage env fs maxSize = (Except.ok none, []) := by
  simp [macExtractRawImage, macExtractFormat_absent h, andT]

theorem macExtractRawImage_present {env : MacEnv} {fs : MacFormats} {maxSize : Option Nat}
    (wb : MacWB env fs maxSize) (h : fs.containsFormat macTiffType = true) :
    ∃ img, macExtractRawImage env fs maxSize =
      (Except.ok (some img), [REvt.readName macTiffType]) := by
  obtain ⟨bs, hbs, hne, hlen⟩ := wb.data_ok _ h
  obtain ⟨img, himg⟩ := wb.tiff_ok bs
  refine ⟨img, ?_⟩
  simp [macExtractRawImage, macExtractFormat_present h hbs hne hlen, andT, himg]

theorem macStringFromType_absent {env : MacEnv} {fs : MacFormats} {t : String}
    (h : fs.containsFormat t = false) :
    macStringFromType env fs t = (Except.ok none, []) := by
  simp [macStringFromType, h]

theorem macStringFromType_present {env : MacEnv} {fs : MacFormats} {t : String}
    {items : List (String → Option String)} {s : String}
    (h : fs.containsFormat t = true) (hit : env.items = some items)
    (hs : macStringLoop t items = Except.ok (some s)) :
    macStringFromType env fs t = (Except.ok (some s), [REvt.readName t]) := by
  simp [macStringFromType, h, hit, hs]

theorem macExtractBody_priority {env : MacEnv} {fs : MacFormats}
    {customs : List MacFormat} {maxSize : Option Nat} (wb : MacWB env fs maxSize)
    (hne : macEligibleTiers fs customs ≠ []) :
    ∃ b tr, macExtractBody env fs customs maxSize = (Except.ok (some b), tr) ∧
      (macEligibleTiers fs customs).head? = some (bodyTier b) ∧
      (∀ e ∈ tr, macAllowedEvt fs customs (bodyTier b) e) ∧
      (bodyTier b = Tier.custom →
        ∃ g bs, customs.find? (fun g => fs.containsFormat g.id) = some g ∧
          b = Body.Custom g.name bs) := by
  by_cases hc : customs.any (fun f => fs.containsFormat f.id) = true
  · have hsome : (customs.find? (fun g => fs.containsFormat g.id)).isSome := by
      rw [List.find?_isSome]
      obtain ⟨x, hx, hpx⟩ := List.any_eq_true.mp hc
      exact ⟨x, hx, hpx⟩
    obtain ⟨g, hgfind⟩ := Option.isSome_iff_exists.mp hsome
    obtain ⟨bs, hbs, hcust⟩ := macExtractCustoms_first wb hgfind
    refine ⟨Body.Custom g.name bs, [REvt.readName g.id], ?_, ?_, ?_, ?_⟩
    · simp [macExtractBody, hcust, andT]
    · simp [macEligibleTiers, tierOrder, List.filter_cons, macTierEligible, hc, bodyTier]
    · intro e he
      simp at he
      subst he
      exact ⟨g, hgfind, rfl⟩
    · intro _
      exact ⟨g, bs, hgfind, rfl⟩
  · have hc' : customs.any (fun f => fs.containsFormat f.id) = false := by simpa using hc
    have hcn : ∀ f ∈ customs, fs.containsFormat f.id = false := by
      intro f hf
      by_contra hcon
      have : customs.any (fun f => fs.containsFormat f.id) = true :=
        List.any_eq_true.mpr ⟨f, hf, by simpa using hcon⟩
      rw [this] at hc'
      cases hc'
    have hcust := @macExtractCustoms_none env fs customs maxSize hcn
    by_cases hp : fs.containsFormat macPngType = true
    · obtain ⟨bs, hbs, hbne, hlen⟩ := wb.data_ok _ hp
      have hfmt := macExtractFormat_present hp hbs hbne hlen
      by_cases hh : fs.containsFormat macFileUrlType = true
      · obtain ⟨files, hfl, hflne⟩ := wb.files_ok hh
        have hpath := macImagePath_present hh hfl hflne
        refine ⟨Body.PngImage bs (if files.length = 1 then some files.headI else none),
          [REvt.readName macPngType, REvt.readFileList], ?_, ?_, ?_, ?_⟩
        · simp [macExtractBody, hcust, hfmt, hpath, andT]
        · simp [macEligibleTiers, tierOrder, List.filter_cons, macTierEligible, hc', hp,
            bodyTier]
        · intro e he
          simp only [bodyTier, macAllowedEvt]
          simp at he
          tauto
        · intro hct
          simp [bodyTier] at hct
      · have hh' : fs.containsFormat macFileUrlType = false := by simpa using hh
        have hpath := @macImagePath_absent env fs hh'
        refine ⟨Body.PngImage bs none, [REvt.readName macPngType], ?_, ?_, ?_, ?_⟩
        · simp [macExtractBody, hcust, hfmt, hpath, andT]
        · simp [macEligibleTiers, tierOrder, List.filter_cons, macTierEligible, hc', hp,
            bodyTier]
        · intro e he
          simp only [bodyTier, macAllowedEvt]
          simp at he
          tauto
        · intro hct
          simp [bodyTier] at hct
    · have hp' : fs.containsFormat macPngType = false := by simpa using hp
      have hfmtp := @macExtractFormat_absent env fs macPngType maxSize hp'
      by_cases hr : fs.containsFormat macTiffType = true
      · obtain ⟨img, hraw⟩ := @macExtractRawImage_present env fs maxSize wb hr
        by_cases hh : fs.containsFormat macFileUrlType = true
        · obtain ⟨files, hfl, hflne⟩ := wb.files_ok hh
          have hpath := macImagePath_present hh hfl hflne
          refine ⟨Body.RawImage img (if files.length = 1 then some files.headI else none),
            [REvt.readName macTiffType, REvt.readFileList], ?_, ?_, ?_, ?_⟩
          · simp [macExtractBody, hcust, hfmtp, hraw, hpath, andT]
          · simp [macEligibleTiers, tierOrder, List.filter_cons, macTierEligible, hc',
              hp', hr, bodyTier]
          · intro e he
            simp only [bodyTier, macAllowedEvt]
            simp at he
            tauto
          · intro hct
            simp [bodyTier] at hct
        · have hh' : fs.containsFormat macFileUrlType = false := by simpa using hh
          have hpath := @macImagePath_absent env fs hh'
          refine ⟨Body.RawImage img none, [REvt.readName macTiffType], ?_, ?_, ?_, ?_⟩
          · simp [macExtractBody, hcust, hfmtp, hraw, hpath, andT]
          · simp [macEligibleTiers, tierOrder, List.filter_cons, macTierEligible, hc',
              hp', hr, bodyTier]
          · intro e he
            simp only [bodyTier, macAllowedEvt]
            simp at he
            tauto
          · intro hct
            simp [bodyTier] at hct
      · have hr' : fs.containsFormat macTiffType = false := by simpa using hr
        have hrawn := @macExtractRawImage_absent env fs maxSize hr'
        by_cases hh : fs.containsFormat macFileUrlType = true
        · obtain ⟨files, hfl, hflne⟩ := wb.files_ok hh
          have hfll := macExtractFilesList_present hh hfl hflne
          refine ⟨Body.FileList files, [REvt.readFileList], ?_, ?_, ?_, ?_⟩
          · simp [macExtractBody, hcust, hfmtp, hrawn, hfll, andT]
          · simp [macEligibleTiers, tierOrder, List.filter_cons, macTierEligible, hc',
              hp', hr', hh, bodyTier]
          · intro e he
            simp at he
            subst he
            simp [bodyTier, macAllowedEvt]
          · intro hct
            simp [bodyTier] at hct
        · have hh' : fs.containsFormat macFileUrlType = false := by simpa using hh
          have hfln := @macExtractFilesList_absent env fs hh'
          by_cases hht : fs.containsFormat macHtmlType = true
          · obtain ⟨items, hit, s, hs⟩ := wb.string_ok macHtmlType (Or.inl rfl) hht
            have hhtml := macStringFromType_present hht hit hs
            refine ⟨Body.Html s, [REvt.readName macHtmlType], ?_, ?_, ?_, ?_⟩
            · simp [macExtractBody, hcust, hfmtp, hrawn, hfln, hhtml, andT]
            · simp [macEligibleTiers, tierOrder, List.filter_cons, macTierEligible, hc',
                hp', hr', hh', hht, bodyTier]
            · intro e he
              simp at he
              subst he
              simp [bodyTier, macAllowedEvt]
            · intro hct
              simp [bodyTier] at hct
          · have hht' : fs.containsFormat macHtmlType = false := by simpa using hht
            have hhtmln := @macStringFromType_absent env fs macHtmlType hht'
            by_cases hst : fs.containsFormat macStringType = true
            · obtain ⟨items, hit, s, hs⟩ := wb.string_ok macStringType (Or.inr rfl) hst
              have htxt := macStringFromType_present hst hit hs
              refine ⟨Body.PlainText s, [REvt.readName macStringType], ?_, ?_, ?_, ?_⟩
              · simp [macExtractBody, hcust, hfmtp, hrawn, hfln, hhtmln, htxt, andT]
              · simp [macEligibleTiers, tierOrder, List.filter_cons, macTierEligible, hc',
                  hp', hr', hh', hht', hst, bodyTier]
              · intro e he
                simp at he
                subst he
                simp [bodyTier, macAllowedEvt]
              · intro hct
                simp [bodyTier] at hct
            · exfalso
              apply hne
              simp [macEligibleTiers, tierOrder, List.filter_cons, macTierEligible, hc',
                hp', hr', hh', hht', (by simpa using hst : fs.containsFormat macStringType = false)]

theorem lin_rfwsc_ok {env : LinEnv} {atoms : LinAtoms} {fs : Formats}
    {maxSize : Option Nat} {fmt : Nat} (wb : LinWB env atoms fs maxSize)
    (h : fs.containsId fmt = true) :
    ∃ bytes tr, read_format_with_size_check env atoms fmt fs maxSize =
        (Except.ok bytes, tr) ∧
      ∀ e ∈ tr, e = REvt.readLength ∨ e = REvt.propSizeQuery ∨ e = REvt.readFormat fmt := by
  cases maxSize with
  | none =>
    obtain ⟨prop, hreq, ⟨bytes, hread⟩, -⟩ := wb.req_ok fmt h
    refine ⟨bytes, [REvt.readFormat fmt], ?_, ?_⟩
    · cases hlen : fs.containsId atoms.LENGTH <;>
        simp [read_format_with_size_check, hlen, linSlowPath, hreq, hread]
    · intro e he
      simp at he
      tauto
  | some m =>
    cases hlen : fs.containsId atoms.LENGTH with
    | true =>
      obtain ⟨prop, sizeBytes, hreq, hread, hlen4, hpos, hle⟩ := wb.len_ok m rfl hlen
      obtain ⟨prop2, hreq2, ⟨bytes, hread2⟩, -⟩ := wb.req_ok fmt h
      refine ⟨bytes, [REvt.readLength, REvt.readFormat fmt], ?_, ?_⟩
      · simp [read_format_with_size_check, hlen, linRequestRead, hreq, hread, hlen4,
          Nat.pos_iff_ne_zero.mp hpos, Nat.not_lt.mpr hle, hreq2, hread2]
      · intro e he
        simp at he
        tauto
    | false =>
      obtain ⟨prop, hreq, ⟨bytes, hread⟩, hsz⟩ := wb.req_ok fmt h
      obtain ⟨sz, hszq, hpos, hle⟩ := hsz m rfl
      refine ⟨bytes, [REvt.propSizeQuery, REvt.readFormat fmt], ?_, ?_⟩
      · simp [read_format_with_size_check, hlen, linSlowPath, hreq, hszq,
          Nat.pos_iff_ne_zero.mp hpos, Nat.not_lt.mpr hle, hread]
      · intro e he
        simp at he
        tauto

theorem linExtractCustoms_none {env : LinEnv} {atoms : LinAtoms} {fs : Formats}
    {customs : List Format} {maxSize : Option Nat}
    (h : ∀ f ∈ customs, fs.containsId f.id = false) :
    linExtractCustoms env atoms fs customs maxSize = (Except.ok none, []) := by
  induction customs with
  | nil => rfl
  | cons f rest ih =>
    have h1 := h f (List.mem_cons_self _ _)
    simp [linExtractCustoms, h1, ih (fun g hg => h g (List.mem_cons_of_mem _ hg))]

theorem linExtractCustoms_first {env : LinEnv} {atoms : LinAtoms} {fs : Formats}
    {customs : List Format} {maxSize : Option Nat} {f : Format}
    (wb : LinWB env atoms fs maxSize)
    (hfind : customs.find? (fun g => fs.containsId g.id) = some f) :
    ∃ bytes tr, linExtractCustoms env atoms fs customs maxSize =
        (Except.ok (some (Body.Custom f.name bytes)), tr) ∧
      ∀ e ∈ tr, e = REvt.readLength ∨ e = REvt.propSizeQuery ∨ e = REvt.readFormat f.id := by
  induction customs with
  | nil => cases hfind
  | cons g rest ih =>
    by_cases hg : fs.containsId g.id = true
    · rw [List.find?_cons] at hfind
      simp only [hg] at hfind
      obtain rfl : g = f := by simpa using hfind
      obtain ⟨bytes, tr, hr, htr⟩ := lin_rfwsc_ok wb hg
      refine ⟨bytes, tr, ?_, htr⟩
      simp [linExtractCustoms, hg, hr, andT]
    · rw [List.find?_cons] at hfind
      simp only [(by simpa using hg : fs.containsId g.id = false)] at hfind
      obtain ⟨bytes, tr, hr, htr⟩ := ih hfind
      refine ⟨bytes, tr, ?_, htr⟩
      simp [linExtractCustoms, (by simpa using hg : fs.containsId g.id = false), hr]

theorem linExtractFileList_ok {env : LinEnv} {atoms : LinAtoms} {prop : Nat}
    {raw : List Nat} (hreq : env.request atoms.FILE_LIST atoms.DATA = Except.ok prop)
    (hread : env.readProp prop = Except.ok raw) :
    linExtractFileList env atoms =
      (Except.ok (paths_from_uri_list raw), [REvt.readFormat atoms.FILE_LIST]) := by
  simp [linExtractFileList, linRequestRead, hreq, hread]

theorem linImagePath_absent {env : LinEnv} {atoms : LinAtoms} {fs : Formats}
    (h : fs.containsId atoms.FILE_LIST = false) :
    linImagePath env atoms fs = (none, []) := by
  simp [linImagePath, h]

theorem linImagePath_present {env : LinEnv} {atoms : LinAtoms} {fs : Formats}
    {prop : Nat} {raw : List Nat} (h : fs.containsId atoms.FILE_LIST = true)
    (hreq : env.request atoms.FILE_LIST atoms.DATA = Except.ok prop)
    (hread : env.readProp prop = Except.ok raw) :
    linImagePath env atoms fs =
      (if (paths_from_uri_list raw).length = 1 then some (paths_from_uri_list raw).headI
       else none,
       [REvt.readFormat atoms.FILE_LIST]) := by
  simp [linImagePath, h, linExtractFileList_ok hreq hread]

theorem linExtractBody_priority {env : LinEnv} {atoms : LinAtoms} {fs : Formats}
    {customs : List Format} {maxSize : Option Nat} (wb : LinWB env atoms fs maxSize)
    (hne : linEligibleTiers atoms fs customs ≠ []) :
    ∃ b tr, linExtractBody env atoms fs customs maxSize = (Except.ok (some b), tr) ∧
      (linEligibleTiers atoms fs customs).head? = some (bodyTier b) ∧
      (∀ e ∈ tr, linAllowedEvt atoms fs customs (bodyTier b) e) ∧
      (bodyTier b = Tier.custom →
        ∃ g bs, customs.find? (fun g => fs.containsId g.id) = some g ∧
          b = Body.Custom g.name bs) := by
  by_cases hc : customs.any (fun f => fs.containsId f.id) = true
  · have hsome : (customs.find? (fun g => fs.containsId g.id)).isSome := by
      rw [List.find?_isSome]
      obtain ⟨x, hx, hpx⟩ := List.any_eq_true.mp hc
      exact ⟨x, hx, hpx⟩
    obtain ⟨g, hgfind⟩ := Option.isSome_iff_exists.mp hsome
    obtain ⟨bytes, tr, hcust, htr⟩ := linExtractCustoms_first wb hgfind
    refine ⟨Body.Custom g.name bytes, tr, ?_, ?_, ?_, ?_⟩
    · simp [linExtractBody, hcust, andT]
    · simp [linEligibleTiers, tierOrder, List.filter_cons, linTierEligible, hc, bodyTier]
    · intro e he
      exact ⟨g, hgfind, htr e he⟩
    · intro _
      exact ⟨g, bytes, hgfind, rfl⟩
  · have hc' : customs.any (fun f => fs.containsId f.id) = false := by simpa using hc
    have hcn : ∀ f ∈ customs, fs.containsId f.id = false := by
      intro f hf
      by_contra hcon
      have : customs.any (fun f => fs.containsId f.id) = true :=
        List.any_eq_true.mpr ⟨f, hf, by simpa using hcon⟩
      rw [this] at hc'
      cases hc'
    have hcust := @linExtractCustoms_none env atoms fs customs maxSize hcn
    by_cases hp : fs.containsId atoms.PNG_MIME = true
    · obtain ⟨bytes, tr, hr, htr⟩ := lin_rfwsc_ok wb hp
      by_cases hh : fs.containsId atoms.FILE_LIST = true
      · obtain ⟨prop, hreq, ⟨raw, hread⟩, -⟩ := wb.req_ok atoms.FILE_LIST hh
        have hpath := linImagePath_present hh hreq hread
        refine ⟨Body.PngImage bytes
            (if (paths_from_uri_list raw).length = 1 then some (paths_from_uri_list raw).headI
             else none),
          tr ++ [REvt.readFormat atoms.FILE_LIST], ?_, ?_, ?_, ?_⟩
        · simp [linExtractBody, hcust, hp, hr, hpath, andT]
        · simp [linEligibleTiers, tierOrder, List.filter_cons, linTierEligible, hc', hp,
            bodyTier]
        · intro e he
          simp only [bodyTier, linAllowedEvt]
          rcases List.mem_append.mp he with h1 | h1
          · have := htr e h1
            tauto
          · simp at h1
            subst h1
            tauto
        · intro hct
          simp [bodyTier] at hct
      · have hh' : fs.containsId atoms.FILE_LIST = false := by simpa using hh
        have hpath := @linImagePath_absent env atoms fs hh'
        refine ⟨Body.PngImage bytes none, tr, ?_, ?_, ?_, ?_⟩
        · simp [linExtractBody, hcust, hp, hr, hpath, andT]
        · simp [linEligibleTiers, tierOrder, List.filter_cons, linTierEligible, hc', hp,
            bodyTier]
        · intro e he
          have := htr e he
          simp only [bodyTier, linAllowedEvt]
          tauto
        · intro hct
          simp [bodyTier] at hct
    · have hp' : fs.containsId atoms.PNG_MIME = false := by simpa using hp
      by_cases hh : fs.containsId atoms.FILE_LIST = true
      · obtain ⟨prop, hreq, ⟨raw, hread⟩, -⟩ := wb.req_ok atoms.FILE_LIST hh
        have hfll := @linExtractFileList_ok env atoms prop raw hreq hread
        refine ⟨Body.FileList (paths_from_uri_list raw),
          [REvt.readFormat atoms.FILE_LIST], ?_, ?_, ?_, ?_⟩
        · simp [linExtractBody, hcust, hp', hh, hfll, andT]
        · simp [linEligibleTiers, tierOrder, List.filter_cons, linTierEligible, hc', hp',
            hh, bodyTier]
        · intro e he
          simp at he
          subst he
          simp [bodyTier, linAllowedEvt]
        · intro hct
          simp [bodyTier] at hct
      · have hh' : fs.containsId atoms.FILE_LIST = false := by simpa using hh
        by_cases hht : fs.containsId atoms.HTML = true
        · obtain ⟨prop, hreq, ⟨raw, hread⟩, -⟩ := wb.req_ok atoms.HTML hht
          refine ⟨Body.Html (env.lossy raw), [REvt.readFormat atoms.HTML], ?_, ?_, ?_, ?_⟩
          · simp [linExtractBody, hcust, hp', hh', hht, linRequestRead, hreq, hread, andT]
          · simp [linEligibleTiers, tierOrder, List.filter_cons, linTierEligible, hc',
              hp', hh', hht, bodyTier]
          · intro e he
            simp at he
            subst he
            simp [bodyTier, linAllowedEvt]
          · intro hct
            simp [bodyTier] at hct
        · have hht' : fs.containsId atoms.HTML = false := by simpa using hht
          cases htxt : available_text_format atoms fs with
          | some fmt =>
            have hfmtmem : fs.containsId fmt = true := List.find?_some htxt
            obtain ⟨prop, hreq, ⟨raw, hread⟩, -⟩ := wb.req_ok fmt hfmtmem
            refine ⟨Body.PlainText (env.lossy raw), [REvt.readFormat fmt], ?_, ?_, ?_, ?_⟩
            · simp [linExtractBody, hcust, hp', hh', hht', htxt, linRequestRead, hreq,
                hread, andT]
            · simp [linEligibleTiers, tierOrder, List.filter_cons, linTierEligible, hc',
                hp', hh', hht', htxt, bodyTier]
            · intro e he
              simp at he
              subst he
              exact ⟨fmt, htxt, rfl⟩
            · intro hct
              simp [bodyTier] at hct
          | none =>
            exfalso
            apply hne
            simp [linEligibleTiers, tierOrder, List.filter_cons, linTierEligible, hc',
              hp', hh', hht', htxt]

/-- C1: on every platform, whenever the catalog offers more than one
eligible format kind, extraction yields exactly one `Body`, of the
highest-priority eligible kind in the documented order (custom — the first
catalog-present custom format in caller-given order — then PNG, then raw
image, then file list, then html, then plain text); and the reads the cycle
performs are confined to the selected tier (plus the file-list path probe
the spec itself attaches to image selections, and the html probe preceding
a text selection). -/
theorem extraction_priority_order :
    (∀ (env : WinEnv) (fs : Formats) (customs : List Format) (maxSize : Option Nat),
      WinWB env fs maxSize → 1 < (winEligibleTiers env fs customs).length →
      ∃ b tr, winExtractBody env fs customs maxSize = (Except.ok (some b), tr) ∧
        (winEligibleTiers env fs customs).head? = some (bodyTier b) ∧
        (∀ e ∈ tr, winAllowedEvt env fs customs (bodyTier b) e) ∧
        (bodyTier b = Tier.custom →
          ∃ g bs, customs.find? (fun g => fs.containsId g.id) = some g ∧
            b = Body.Custom g.name bs)) ∧
    (∀ (env : MacEnv) (fs : MacFormats) (customs : List MacFormat) (maxSize : Option Nat),
      MacWB env fs maxSize → 1 < (macEligibleTiers fs customs).length →
      ∃ b tr, macExtractBody env fs customs maxSize = (Except.ok (some b), tr) ∧
        (macEligibleTiers fs customs).head? = some (bodyTier b) ∧
        (∀ e ∈ tr, macAllowedEvt fs customs (bodyTier b) e) ∧
        (bodyTier b = Tier.custom →
          ∃ g bs, customs.find? (fun g => fs.containsFormat g.id) = some g ∧
            b = Body.Custom g.name bs)) ∧
    (∀ (env : LinEnv) (atoms : LinAtoms) (fs : Formats) (customs : List Format)
        (maxSize : Option Nat),
      LinWB env atoms fs maxSize → 1 < (linEligibleTiers atoms fs customs).length →
      ∃ b tr, linExtractBody env atoms fs customs maxSize = (Except.ok (some b), tr) ∧
        (linEligibleTiers atoms fs customs).head? = some (bodyTier b) ∧
        (∀ e ∈ tr, linAllowedEvt atoms fs customs (bodyTier b) e) ∧
        (bodyTier b = Tier.custom →
          ∃ g bs, customs.find? (fun g => fs.containsId g.id) = some g ∧
            b = Body.Custom g.name bs)) := by
  refine ⟨?_, ?_, ?_⟩
  · intro env fs customs maxSize wb hlen
    exact winExtractBody_priority wb (by intro h; rw [h] at hlen; cases hlen)
  · intro env fs customs maxSize wb hlen
    exact macExtractBody_priority wb (by intro h; rw [h] at hlen; cases hlen)
  · intro env atoms fs customs maxSize wb hlen
    exact linExtractBody_priority wb (by intro h; rw [h] at hlen; cases hlen)

/-- Witness for the priority claim: on each platform, a catalog holding
both the PNG format and a readable plain text yields the PNG tier. -/
theorem extraction_priority_order_witness :
    (∃ b tr,
      winExtractBody
          ⟨100, fun _ => some 3, fun _ => Except.ok [7, 8], none,
           fun _ => Except.ok ⟨[1], 1, 1⟩, none, some "txt", Except.ok ()⟩
          ⟨[⟨100, "PNG"⟩]⟩ [] none = (Except.ok (some b), tr) ∧
        (winEligibleTiers
            ⟨100, fun _ => some 3, fun _ => Except.ok [7, 8], none,
             fun _ => Except.ok ⟨[1], 1, 1⟩, none, some "txt", Except.ok ()⟩
            ⟨[⟨100, "PNG"⟩]⟩ []).head? = some (bodyTier b)) ∧
    (∃ b tr,
      macExtractBody
          ⟨fun _ => some [9], none, fun _ => Except.ok ⟨[1], 1, 1⟩,
           some [fun _ => some "st"]⟩
          ⟨[⟨macPngType, "png"⟩, ⟨macStringType, "text"⟩]⟩ [] none =
          (Except.ok (some b), tr) ∧
        (macEligibleTiers ⟨[⟨macPngType, "png"⟩, ⟨macStringType, "text"⟩]⟩ []).head? =
          some (bodyTier b)) ∧
    (∃ b tr,
      linExtractBody
          ⟨fun _ _ => Except.ok 500, fun _ => Except.ok [3], fun _ => Except.ok 1,
           fun _ => Except.ok (), fun _ => "s"⟩
          ⟨1, 2, 3, 4, 5, 6, 7, 8, 9, 10, 11, 12, 13, 14, 15, 16⟩
          ⟨[⟨15, "image/png"⟩, ⟨11, "UTF8_STRING"⟩]⟩ [] none =
          (Except.ok (some b), tr) ∧
        (linEligibleTiers ⟨1, 2, 3, 4, 5, 6, 7, 8, 9, 10, 11, 12, 13, 14, 15, 16⟩
            ⟨[⟨15, "image/png"⟩, ⟨11, "UTF8_STRING"⟩]⟩ []).head? = some (bodyTier b)) := by
  refine ⟨?_, ?_, ?_⟩
  · obtain ⟨b, tr, h1, h2, -, -⟩ :=
      extraction_priority_order.1
        ⟨100, fun _ => some 3, fun _ => Except.ok [7, 8], none,
         fun _ => Except.ok ⟨[1], 1, 1⟩, none, some "txt", Except.ok ()⟩
        ⟨[⟨100, "PNG"⟩]⟩ [] none
        ⟨fun id _ => ⟨3, rfl, fun m hm => by cases hm⟩,
         fun id _ => ⟨[7, 8], rfl, by decide⟩,
         fun bs => ⟨⟨[1], 1, 1⟩, rfl⟩,
         fun h => absurd h (by decide),
         by decide, by decide⟩
        (by decide)
    exact ⟨b, tr, h1, h2⟩
  · obtain ⟨b, tr, h1, h2, -, -⟩ :=
      extraction_priority_order.2.1
        ⟨fun _ => some [9], none, fun _ => Except.ok ⟨[1], 1, 1⟩,
         some [fun _ => some "st"]⟩
        ⟨[⟨macPngType, "png"⟩, ⟨macStringType, "text"⟩]⟩ [] none
        ⟨fun t _ => ⟨[9], rfl, by decide, fun m hm => by cases hm⟩,
         fun bs => ⟨⟨[1], 1, 1⟩, rfl⟩,
         fun h => absurd h (by decide),
         fun t _ _ => ⟨[fun _ => some "st"], rfl, "st", rfl⟩⟩
        (by decide)
    exact ⟨b, tr, h1, h2⟩
  · obtain ⟨b, tr, h1, h2, -, -⟩ :=
      extraction_priority_order.2.2
        ⟨fun _ _ => Except.ok 500, fun _ => Except.ok [3], fun _ => Except.ok 1,
         fun _ => Except.ok (), fun _ => "s"⟩
        ⟨1, 2, 3, 4, 5, 6, 7, 8, 9, 10, 11, 12, 13, 14, 15, 16⟩
        ⟨[⟨15, "image/png"⟩, ⟨11, "UTF8_STRING"⟩]⟩ [] none
        ⟨fun fmt _ => ⟨500, rfl, ⟨[3], rfl⟩, fun m hm => by cases hm⟩,
         fun m hm => by cases hm⟩
        (by decide)
    exact ⟨b, tr, h1, h2⟩

theorem gate_not_in_rmap (l : List REvt) : Evt.gate ∉ l.map Evt.r := by
  intro h
  obtain ⟨e, -, he⟩ := List.mem_map.mp h
  cases he

/-- C4: on every platform, the gatekeeper is consulted exactly once per
cycle — the cycle's event sequence starts with the single gatekeeper call,
and no further gatekeeper call or preceding read occurs; when it returns
false, the cycle performs no read at all (its whole trace is the bare
gatekeeper call) and publishes neither a body nor an error. -/
theorem gatekeeper_once_before_reads :
    (∀ (env : WinEnv) (fs : Formats) (customs : List Format) (maxSize : Option Nat),
      winExtractContent env fs customs maxSize false =
        (Except.error ErrorWrapper.UserSkipped, [Evt.gate]) ∧
      (env.openClip = Except.ok () →
        winPollClipboard env fs customs maxSize false = (Except.ok none, [Evt.gate]) ∧
        publishOf (winPollClipboard env fs customs maxSize false).1 = none) ∧
      (∀ gate, ∃ t, (winExtractContent env fs customs maxSize gate).2 = Evt.gate :: t ∧
        Evt.gate ∉ t)) ∧
    (∀ (env : MacEnv) (fs : MacFormats) (customs : List MacFormat) (maxSize : Option Nat),
      macExtractContent env fs customs maxSize false =
        (Except.error ErrorWrapper.UserSkipped, [Evt.gate]) ∧
      macGetClipboardContent env fs customs maxSize false = (Except.ok none, [Evt.gate]) ∧
      publishOf (macGetClipboardContent env fs customs maxSize false).1 = none ∧
      (∀ gate, ∃ t, (macExtractContent env fs customs maxSize gate).2 = Evt.gate :: t ∧
        Evt.gate ∉ t)) ∧
    (∀ (env : LinEnv) (atoms : LinAtoms) (fs : Formats) (customs : List Format)
        (maxSize : Option Nat),
      linExtractContent env atoms fs customs maxSize false =
        (Except.error ErrorWrapper.UserSkipped, [Evt.gate]) ∧
      linPollClipboard env atoms fs customs maxSize false = (Except.ok none, [Evt.gate]) ∧
      publishOf (linPollClipboard env atoms fs customs maxSize false).1 = none ∧
      (∀ gate, ∃ t, (linExtractContent env atoms fs customs maxSize gate).2 = Evt.gate :: t ∧
        Evt.gate ∉ t)) := by
  refine ⟨?_, ?_, ?_⟩
  · intro env fs customs maxSize
    refine ⟨rfl, ?_, ?_⟩
    · intro h
      constructor
      · simp [winPollClipboard, h, winExtractContent]
      · simp [winPollClipboard, h, winExtractContent, publishOf]
    · intro gate
      cases gate with
      | false => exact ⟨[], rfl, by simp⟩
      | true =>
        exact ⟨(winExtractBody env fs customs maxSize).2.map Evt.r, rfl,
          gate_not_in_rmap _⟩
  · intro env fs customs maxSize
    refine ⟨rfl, ?_, ?_, ?_⟩
    · simp [macGetClipboardContent, macExtractContent]
    · simp [macGetClipboardContent, macExtractContent, publishOf]
    · intro gate
      cases gate with
      | false => exact ⟨[], rfl, by simp⟩
      | true =>
        exact ⟨(macExtractBody env fs customs maxSize).2.map Evt.r, rfl,
          gate_not_in_rmap _⟩
  · intro env atoms fs customs maxSize
    refine ⟨rfl, ?_, ?_, ?_⟩
    · simp [linPollClipboard, linExtractContent]
    · simp [linPollClipboard, linExtractContent, publishOf]
    · intro gate
      cases gate with
      | false => exact ⟨[], rfl, by simp⟩
      | true =>
        exact ⟨(linExtractBody env atoms fs customs maxSize).2.map Evt.r, rfl,
          gate_not_in_rmap _⟩

/-- Witness for the gatekeeper claim: a vetoed cycle on the concrete
Windows probe environment reads nothing and publishes nothing. -/
theorem gatekeeper_once_before_reads_witness :
    winPollClipboard envC2 fsC2 [] none false = (Except.ok none, [Evt.gate]) ∧
      publishOf (winPollClipboard envC2 fsC2 [] none false).1 = none :=
  (gatekeeper_once_before_reads.1 envC2 fsC2 [] none).2.1 rfl

/-- C5: on every platform, when extraction selects a PNG (or raw) image
while the file-list format is simultaneously present and readable, the
image body's source path is the file list's single entry exactly when that
list has length one, and is absent otherwise — a multi-entry list never
contributes a path. -/
theorem image_source_path_rule :
    (∀ (env : WinEnv) (fs : Formats) (customs : List Format) (maxSize : Option Nat)
        (bs : List Nat) (files : List BPath),
      (∀ f ∈ customs, fs.containsId f.id = false) →
      fs.containsId env.pngId = true →
      env.get env.pngId = Except.ok bs → bs ≠ [] →
      (∀ m, maxSize = some m → ∃ s, env.size env.pngId = some s ∧ s ≤ m) →
      fs.containsId CF_HDROP = true →
      env.fileList = some files → files ≠ [] →
      (winExtractBody env fs customs maxSize).1 =
        Except.ok (some (Body.PngImage bs
          (if files.length = 1 then some files.headI else none)))) ∧
    (∀ (env : WinEnv) (fs : Formats) (customs : List Format) (maxSize : Option Nat)
        (bs : List Nat) (img : RawImg) (files : List BPath),
      (∀ f ∈ customs, fs.containsId f.id = false) →
      fs.containsId env.pngId = false →
      fs.containsId CF_DIBV5 = true →
      env.get CF_DIBV5 = Except.ok bs → bs ≠ [] →
      (∀ m, maxSize = some m → ∃ s, env.size CF_DIBV5 = some s ∧ s ≤ m) →
      env.dib bs = Except.ok img →
      fs.containsId CF_HDROP = true →
      env.fileList = some files → files ≠ [] →
      (winExtractBody env fs customs maxSize).1 =
        Except.ok (some (Body.RawImage img
          (if files.length = 1 then some files.headI else none)))) ∧
    (∀ (env : MacEnv) (fs : MacFormats) (customs : List MacFormat) (maxSize : Option Nat)
        (bs : List Nat) (files : List BPath),
      (∀ f ∈ customs, fs.containsFormat f.id = false) →
      fs.containsFormat macPngType = true →
      env.data macPngType = some bs → bs ≠ [] →
      (∀ m, maxSize = some m → bs.length ≤ m) →
      fs.containsFormat macFileUrlType = true →
      env.fileUrls = some files → files ≠ [] →
      (macExtractBody env fs customs maxSize).1 =
        Except.ok (some (Body.PngImage bs
          (if files.length = 1 then some files.headI else none)))) ∧
    (∀ (env : MacEnv) (fs : MacFormats) (customs : List MacFormat) (maxSize : Option Nat)
        (bs : List Nat) (img : RawImg) (files : List BPath),
      (∀ f ∈ customs, fs.containsFormat f.id = false) →
      fs.containsFormat macPngType = false →
      fs.containsFormat macTiffType = true →
      env.data macTiffType = some bs → bs ≠ [] →
      (∀ m, maxSize = some m → bs.length ≤ m) →
      env.tiff bs = Except.ok img →
      fs.containsFormat macFileUrlType = true →
      env.fileUrls = some files → files ≠ [] →
      (macExtractBody env fs customs maxSize).1 =
        Except.ok (some (Body.RawImage img
          (if files.length = 1 then some files.headI else none)))) ∧
    (∀ (env : LinEnv) (atoms : LinAtoms) (fs : Formats) (customs : List Format)
        (maxSize : Option Nat) (prop : Nat) (raw : List Nat),
      LinWB env atoms fs maxSize →
      (∀ f ∈ customs, fs.containsId f.id = false) →
      fs.containsId atoms.PNG_MIME = true →
      fs.containsId atoms.FILE_LIST = true →
      env.request atoms.FILE_LIST atoms.DATA = Except.ok prop →
      env.readProp prop = Except.ok raw →
      ∃ bytes, (linExtractBody env atoms fs customs maxSize).1 =
        Except.ok (some (Body.PngImage bytes
          (if (paths_from_uri_list raw).length = 1 then some (paths_from_uri_list raw).headI
           else none)))) := by
  refine ⟨?_, ?_, ?_, ?_, ?_⟩
  · intro env fs customs maxSize bs files hcn hp hbs hbne hsz hh hfl hflne
    have hcust := @winExtractCustoms_none env fs customs maxSize hcn
    have hfmt := winExtractFormat_present hp hbs hbne hsz
    have hpath := winImagePath_present hh hfl hflne
    simp [winExtractBody, hcust, hfmt, hpath, andT]
  · intro env fs customs maxSize bs img files hcn hp h5 hbs hbne hsz hdib hh hfl hflne
    have hcust := @winExtractCustoms_none env fs customs maxSize hcn
    have hfmtp := @winExtractFormat_absent env fs env.pngId maxSize hp
    have h5fmt := winExtractFormat_present h5 hbs hbne hsz
    have hraw : winExtractRawImage env fs maxSize =
        (Except.ok (some img), winFmtTrace CF_DIBV5 maxSize) := by
      simp [winExtractRawImage, h5fmt, andT, winDecodeDib, hdib]
    have hpath := winImagePath_present hh hfl hflne
    simp [winExtractBody, hcust, hfmtp, hraw, hpath, andT]
  · intro env fs customs maxSize bs files hcn hp hbs hbne hsz hh hfl hflne
    have hcust := @macExtractCustoms_none env fs customs maxSize hcn
    have hfmt := macExtractFormat_present hp hbs hbne hsz
    have hpath := macImagePath_present hh hfl hflne
    simp [macExtractBody, hcust, hfmt, hpath, andT]
  · intro env fs customs maxSize bs img files hcn hp htiff hbs hbne hsz hdec hh hfl hflne
    have hcust := @macExtractCustoms_none env fs customs maxSize hcn
    have hfmtp := @macExtractFormat_absent env fs macPngType maxSize hp
    have hraw : macExtractRawImage env fs maxSize =
        (Except.ok (some img), [REvt.readName macTiffType]) := by
      simp [macExtractRawImage, macExtractFormat_present htiff hbs hbne hsz, andT, hdec]
    have hpath := macImagePath_present hh hfl hflne
    simp [macExtractBody, hcust, hfmtp, hraw, hpath, andT]
  · intro env atoms fs customs maxSize prop raw wb hcn hp hh hreq hread
    have hcust := @linExtractCustoms_none env atoms fs customs maxSize hcn
    obtain ⟨bytes, tr, hr, -⟩ := lin_rfwsc_ok wb hp
    have hpath := linImagePath_present hh hreq hread
    refine ⟨bytes, ?_⟩
    simp [linExtractBody, hcust, hp, hr, hpath, andT]

/-- Witness for the source-path claim at a concrete Windows clipboard:
PNG plus a one-entry file list attaches that entry; PNG plus a two-entry
file list attaches nothing. -/
theorem image_source_path_rule_witness :
    (winExtractBody
        ⟨100, fun _ => some 3, fun _ => Except.ok [7], some [[47, 97]],
         fun _ => Except.error "x", none, none, Except.ok ()⟩
        ⟨[⟨100, "PNG"⟩, ⟨15, "CF_HDROP"⟩]⟩ [] none).1 =
      Except.ok (some (Body.PngImage [7] (some [47, 97]))) ∧
    (winExtractBody
        ⟨100, fun _ => some 3, fun _ => Except.ok [7], some [[47, 97], [47, 98]],
         fun _ => Except.error "x", none, none, Except.ok ()⟩
        ⟨[⟨100, "PNG"⟩, ⟨15, "CF_HDROP"⟩]⟩ [] none).1 =
      Except.ok (some (Body.PngImage [7] none)) := by
  constructor
  · have h := image_source_path_rule.1
      ⟨100, fun _ => some 3, fun _ => Except.ok [7], some [[47, 97]],
       fun _ => Except.error "x", none, none, Except.ok ()⟩
      ⟨[⟨100, "PNG"⟩, ⟨15, "CF_HDROP"⟩]⟩ [] none [7] [[47, 97]]
      (by intro f hf; cases hf) (by decide) rfl (by decide)
      (fun m hm => by cases hm) (by decide) rfl (by decide)
    simpa using h
  · have h := image_source_path_rule.1
      ⟨100, fun _ => some 3, fun _ => Except.ok [7], some [[47, 97], [47, 98]],
       fun _ => Except.error "x", none, none, Except.ok ()⟩
      ⟨[⟨100, "PNG"⟩, ⟨15, "CF_HDROP"⟩]⟩ [] none [7] [[47, 97], [47, 98]]
      (by intro f hf; cases hf) (by decide) rfl (by decide)
      (fun m hm => by cases hm) (by decide) rfl (by decide)
    simpa using h

/-- C2 counterexample: with a 10-byte limit, a catalog offering an
oversized (100-byte) PNG and a perfectly readable plain text, the claimed
fall-through would select the text body; the code instead aborts the whole
cycle after the size probe — no body, no error, and the text tier is never
inspected. -/
theorem sizeGate_no_fallthrough_counterexample :
    winTierEligible envC2 fsC2 [] Tier.text = true ∧
      envC2.size envC2.pngId = some 100 ∧
      winPollClipboard envC2 fsC2 [] (some 10) true =
        (Except.ok none, [Evt.gate, Evt.r (REvt.sizeQuery 100)]) ∧
      publishOf (winPollClipboard envC2 fsC2 [] (some 10) true).1 = none := by
  refine ⟨by decide, rfl, by rfl, by rfl⟩

/-- C2 (amended): on every platform, exceeding the size limit on the
selected image or custom format aborts the entire resolution for that
cycle — no body and no error are published, and no lower-priority format
is inspected (on the Linux expensive probe the staged property is deleted
first); `NoMatchingFormat` is reported exactly when no format at all is
readable (a catalog with a readable format always yields a body); and the
limit is never applied to html or plain text, whose outcome is independent
of it. -/
theorem sizeGate_aborts_cycle :
    (∀ (env : WinEnv) (fs : Formats) (customs : List Format) (m s : Nat),
      env.openClip = Except.ok () →
      (∀ f ∈ customs, fs.containsId f.id = false) →
      fs.containsId env.pngId = true →
      env.size env.pngId = some s → m < s →
      winPollClipboard env fs customs (some m) true =
        (Except.ok none, [Evt.gate, Evt.r (REvt.sizeQuery env.pngId)])) ∧
    (∀ (env : WinEnv) (fs : Formats) (rest : List Format) (f : Format) (m s : Nat),
      env.openClip = Except.ok () →
      fs.containsId f.id = true →
      env.size f.id = some s → m < s →
      winPollClipboard env fs (f :: rest) (some m) true =
        (Except.ok none, [Evt.gate, Evt.r (REvt.sizeQuery f.id)])) ∧
    (∀ (env : WinEnv) (fs : Formats) (customs : List Format) (m s : Nat),
      env.openClip = Except.ok () →
      (∀ f ∈ customs, fs.containsId f.id = false) →
      fs.containsId env.pngId = false →
      fs.containsId CF_DIBV5 = true →
      env.size CF_DIBV5 = some s → m < s →
      winPollClipboard env fs customs (some m) true =
        (Except.ok none, [Evt.gate, Evt.r (REvt.sizeQuery CF_DIBV5)])) ∧
    (∀ (env : WinEnv) (fs : Formats) (customs : List Format) (maxA maxB : Option Nat),
      (∀ f ∈ customs, fs.containsId f.id = false) →
      fs.containsId env.pngId = false →
      fs.containsId CF_DIBV5 = false → fs.containsId CF_DIB = false →
      fs.containsId CF_HDROP = false →
      winExtractBody env fs customs maxA = winExtractBody env fs customs maxB) ∧
    (∀ (env : WinEnv) (fs : Formats) (customs : List Format) (maxSize : Option Nat),
      env.openClip = Except.ok () →
      (∀ f ∈ customs, fs.containsId f.id = false) →
      fs.containsId env.pngId = false →
      fs.containsId CF_DIBV5 = false → fs.containsId CF_DIB = false →
      fs.containsId CF_HDROP = false →
      env.html = none → env.unicode = none →
      (winPollClipboard env fs customs maxSize true).1 =
        Except.error ClipboardError.NoMatchingFormat) ∧
    (∀ (env : WinEnv) (fs : Formats) (customs : List Format) (maxSize : Option Nat),
      env.openClip = Except.ok () →
      WinWB env fs maxSize → winEligibleTiers env fs customs ≠ [] →
      ∃ b t, winPollClipboard env fs customs maxSize true =
        (Except.ok (some b), t)) ∧
    (∀ (env : MacEnv) (fs : MacFormats) (customs : List MacFormat) (m : Nat)
        (bs : List Nat),
      (∀ f ∈ customs, fs.containsFormat f.id = false) →
      fs.containsFormat macPngType = true →
      env.data macPngType = some bs → m < bs.length →
      macGetClipboardContent env fs customs (some m) true =
        (Except.ok none, [Evt.gate, Evt.r (REvt.readName macPngType)])) ∧
    (∀ (env : MacEnv) (fs : MacFormats) (rest : List MacFormat) (f : MacFormat)
        (m : Nat) (bs : List Nat),
      fs.containsFormat f.id = true →
      env.data f.id = some bs → m < bs.length →
      macGetClipboardContent env fs (f :: rest) (some m) true =
        (Except.ok none, [Evt.gate, Evt.r (REvt.readName f.id)])) ∧
    (∀ (env : MacEnv) (fs : MacFormats) (customs : List MacFormat) (m : Nat)
        (bs : List Nat),
      (∀ f ∈ customs, fs.containsFormat f.id = false) →
      fs.containsFormat macPngType = false →
      fs.containsFormat macTiffType = true →
      env.data macTiffType = some bs → m < bs.length →
      macGetClipboardContent env fs customs (some m) true =
        (Except.ok none, [Evt.gate, Evt.r (REvt.readName macTiffType)])) ∧
    (∀ (env : MacEnv) (fs : MacFormats) (customs : List MacFormat)
        (maxA maxB : Option Nat),
      (∀ f ∈ customs, fs.containsFormat f.id = false) →
      fs.containsFormat macPngType = false →
      fs.containsFormat macTiffType = false →
      macExtractBody env fs customs maxA = macExtractBody env fs customs maxB) ∧
    (∀ (env : MacEnv) (fs : MacFormats) (customs : List MacFormat)
        (maxSize : Option Nat),
      (∀ f ∈ customs, fs.containsFormat f.id = false) →
      fs.containsFormat macPngType = false →
      fs.containsFormat macTiffType = false →
      fs.containsFormat macFileUrlType = false →
      fs.containsFormat macHtmlType = false →
      fs.containsFormat macStringType = false →
      (macGetClipboardContent env fs customs maxSize true).1 =
        Except.error ClipboardError.NoMatchingFormat) ∧
    (∀ (env : MacEnv) (fs : MacFormats) (customs : List MacFormat)
        (maxSize : Option Nat),
      MacWB env fs maxSize → macEligibleTiers fs customs ≠ [] →
      ∃ b t, macGetClipboardContent env fs customs maxSize true =
        (Except.ok (some b), t)) ∧
    (∀ (env : LinEnv) (atoms : LinAtoms) (fs : Formats) (customs : List Format)
        (m prop : Nat) (sizeBytes : List Nat),
      (∀ f ∈ customs, fs.containsId f.id = false) →
      fs.containsId atoms.PNG_MIME = true →
      fs.containsId atoms.LENGTH = true →
      env.request atoms.LENGTH atoms.METADATA = Except.ok prop →
      env.readProp prop = Except.ok sizeBytes →
      4 ≤ sizeBytes.length → m < u32FromLe sizeBytes →
      linPollClipboard env atoms fs customs (some m) true =
        (Except.ok none, [Evt.gate, Evt.r REvt.readLength])) ∧
    (∀ (env : LinEnv) (atoms : LinAtoms) (fs : Formats) (customs : List Format)
        (m dataProp size : Nat),
      (∀ f ∈ customs, fs.containsId f.id = false) →
      fs.containsId atoms.PNG_MIME = true →
      fs.containsId atoms.LENGTH = false →
      env.request atoms.PNG_MIME atoms.DATA = Except.ok dataProp →
      env.propSize dataProp = Except.ok size → m < size →
      env.deleteProp dataProp = Except.ok () →
      linPollClipboard env atoms fs customs (some m) true =
        (Except.ok none,
         [Evt.gate, Evt.r REvt.propSizeQuery, Evt.r REvt.deleteProp])) ∧
    (∀ (env : LinEnv) (atoms : LinAtoms) (fs : Formats) (rest : List Format)
        (f : Format) (m prop : Nat) (sizeBytes : List Nat),
      fs.containsId f.id = true →
      fs.containsId atoms.LENGTH = true →
      env.request atoms.LENGTH atoms.METADATA = Except.ok prop →
      env.readProp prop = Except.ok sizeBytes →
      4 ≤ sizeBytes.length → m < u32FromLe sizeBytes →
      linPollClipboard env atoms fs (f :: rest) (some m) true =
        (Except.ok none, [Evt.gate, Evt.r REvt.readLength])) ∧
    (∀ (env : LinEnv) (atoms : LinAtoms) (fs : Formats) (customs : List Format)
        (maxA maxB : Option Nat),
      (∀ f ∈ customs, fs.containsId f.id = false) →
      fs.containsId atoms.PNG_MIME = false →
      linExtractBody env atoms fs customs maxA =
        linExtractBody env atoms fs customs maxB) ∧
    (∀ (env : LinEnv) (atoms : LinAtoms) (fs : Formats) (customs : List Format)
        (maxSize : Option Nat),
      (∀ f ∈ customs, fs.containsId f.id = false) →
      fs.containsId atoms.PNG_MIME = false →
      fs.containsId atoms.FILE_LIST = false →
      fs.containsId atoms.HTML = false →
      available_text_format atoms fs = none →
      (linPollClipboard env atoms fs customs maxSize true).1 =
        Except.error ClipboardError.NoMatchingFormat) ∧
    (∀ (env : LinEnv) (atoms : LinAtoms) (fs : Formats) (customs : List Format)
        (maxSize : Option Nat),
      LinWB env atoms fs maxSize → linEligibleTiers atoms fs customs ≠ [] →
      ∃ b t, linPollClipboard env atoms fs customs maxSize true =
        (Except.ok (some b), t)) := by
  refine ⟨?_, ?_, ?_, ?_, ?_, ?_, ?_, ?_, ?_, ?_, ?_, ?_, ?_, ?_, ?_, ?_, ?_, ?_⟩
  · intro env fs customs m s hopen hcn hp hs hms
    have hcust := @winExtractCustoms_none env fs customs (some m) hcn
    simp [winPollClipboard, hopen, winExtractContent, winExtractBody, hcust,
      winExtractFormat, hp, hs, hms, andT]
  · intro env fs rest f m s hopen hf hs hms
    simp [winPollClipboard, hopen, winExtractContent, winExtractBody, winExtractCustoms,
      winExtractFormat, hf, hs, hms, andT]
  · intro env fs customs m s hopen hcn hp h5 hs hms
    have hcust := @winExtractCustoms_none env fs customs (some m) hcn
    simp [winPollClipboard, hopen, winExtractContent, winExtractBody, hcust,
      winExtractRawImage, winExtractFormat, hp, h5, hs, hms, andT]
  · intro env fs customs maxA maxB hcn hp h5 h8 hh
    have hcustA : ∀ ms, winExtractCustoms env fs customs ms = (Except.ok none, []) :=
      fun ms => @winExtractCustoms_none env fs customs ms hcn
    have hfmtA : ∀ ms, winExtractFormat env fs env.pngId ms = (Except.ok none, []) :=
      fun ms => @winExtractFormat_absent env fs env.pngId ms hp
    have hrawA : ∀ ms, winExtractRawImage env fs ms = (Except.ok none, []) :=
      fun ms => @winExtractRawImage_absent env fs ms h5 h8
    simp [winExtractBody, hcustA, hfmtA, hrawA,
      @winExtractFilesList_absent env fs hh, andT]
  · intro env fs customs maxSize hopen hcn hp h5 h8 hh hhtml huni
    simp [winPollClipboard, hopen, winExtractContent, winExtractBody,
      @winExtractCustoms_none env fs customs maxSize hcn,
      @winExtractFormat_absent env fs env.pngId _ hp,
      @winExtractRawImage_absent env fs _ h5 h8,
      @winExtractFilesList_absent env fs hh, winHtmlText, hhtml, huni, andT]
  · intro env fs customs maxSize hopen wb htier
    obtain ⟨b, tr, hbody, -, -, -⟩ := winExtractBody_priority wb htier
    refine ⟨b, Evt.gate :: tr.map Evt.r, ?_⟩
    simp [winPollClipboard, hopen, winExtractContent, hbody]
  · intro env fs customs m bs hcn hp hd hms
    have h0 : bs.length ≠ 0 :=
      Nat.pos_iff_ne_zero.mp (Nat.lt_of_le_of_lt (Nat.zero_le m) hms)
    have hcust := @macExtractCustoms_none env fs customs (some m) hcn
    simp [macGetClipboardContent, macExtractContent, macExtractBody, hcust,
      macExtractFormat, hp, hd, h0, hms, andT]
  · intro env fs rest f m bs hf hd hms
    have h0 : bs.length ≠ 0 :=
      Nat.pos_iff_ne_zero.mp (Nat.lt_of_le_of_lt (Nat.zero_le m) hms)
    simp [macGetClipboardContent, macExtractContent, macExtractBody, macExtractCustoms,
      macExtractFormat, hf, hd, h0, hms, andT]
  · intro env fs customs m bs hcn hp ht hd hms
    have h0 : bs.length ≠ 0 :=
      Nat.pos_iff_ne_zero.mp (Nat.lt_of_le_of_lt (Nat.zero_le m) hms)
    have hcust := @macExtractCustoms_none env fs customs (some m) hcn
    simp [macGetClipboardContent, macExtractContent, macExtractBody, hcust,
      macExtractRawImage, macExtractFormat, hp, ht, hd, h0, hms, andT]
  · intro env fs customs maxA maxB hcn hp ht
    have hcustA : ∀ ms, macExtractCustoms env fs customs ms = (Except.ok none, []) :=
      fun ms => @macExtractCustoms_none env fs customs ms hcn
    have hfmtA : ∀ ms, macExtractFormat env fs macPngType ms = (Except.ok none, []) :=
      fun ms => @macExtractFormat_absent env fs macPngType ms hp
    have hrawA : ∀ ms, macExtractRawImage env fs ms = (Except.ok none, []) :=
      fun ms => @macExtractRawImage_absent env fs ms ht
    simp [macExtractBody, hcustA, hfmtA, hrawA, andT]
  · intro env fs customs maxSize hcn hp ht hfu hht hst
    simp [macGetClipboardContent, macExtractContent, macExtractBody,
      @macExtractCustoms_none env fs customs maxSize hcn,
      @macExtractFormat_absent env fs macPngType maxSize hp,
      @macExtractRawImage_absent env fs maxSize ht,
      @macExtractFilesList_absent env fs hfu,
      @macStringFromType_absent env fs macHtmlType hht,
      @macStringFromType_absent env fs macStringType hst, andT]
  · intro env fs customs maxSize wb htier
    obtain ⟨b, tr, hbody, -, -, -⟩ := macExtractBody_priority wb htier
    refine ⟨b, Evt.gate :: tr.map Evt.r, ?_⟩
    simp [macGetClipboardContent, macExtractContent, hbody]
  · intro env atoms fs customs m prop sizeBytes hcn hp hlenp hreq hread hlen4 hms
    have hcust := @linExtractCustoms_none env atoms fs customs (some m) hcn
    have hnz : u32FromLe sizeBytes ≠ 0 :=
      Nat.pos_iff_ne_zero.mp (Nat.lt_of_le_of_lt (Nat.zero_le m) hms)
    simp [linPollClipboard, linExtractContent, linExtractBody, hcust, hp,
      read_format_with_size_check, hlenp, linRequestRead, hreq, hread, hlen4, hnz,
      hms, andT]
  · intro env atoms fs customs m dataProp size hcn hp hlen hreq hpsz hms hdel
    have hcust := @linExtractCustoms_none env atoms fs customs (some m) hcn
    have hnz : size ≠ 0 :=
      Nat.pos_iff_ne_zero.mp (Nat.lt_of_le_of_lt (Nat.zero_le m) hms)
    simp [linPollClipboard, linExtractContent, linExtractBody, hcust, hp,
      read_format_with_size_check, hlen, linSlowPath, hreq, hpsz, hnz, hms, hdel,
      andT]
  · intro env atoms fs rest f m prop sizeBytes hf hlenp hreq hread hlen4 hms
    have hnz : u32FromLe sizeBytes ≠ 0 :=
      Nat.pos_iff_ne_zero.mp (Nat.lt_of_le_of_lt (Nat.zero_le m) hms)
    simp [linPollClipboard, linExtractContent, linExtractBody, linExtractCustoms, hf,
      read_format_with_size_check, hlenp, linRequestRead, hreq, hread, hlen4, hnz,
      hms, andT]
  · intro env atoms fs customs maxA maxB hcn hp
    have hcustA : ∀ ms, linExtractCustoms env atoms fs customs ms =
        (Except.ok none, []) :=
      fun ms => @linExtractCustoms_none env atoms fs customs ms hcn
    simp [linExtractBody, hcustA, hp, andT]
  · intro env atoms fs customs maxSize hcn hp hfl hht htxt
    simp [linPollClipboard, linExtractContent, linExtractBody,
      @linExtractCustoms_none env atoms fs customs maxSize hcn, hp, hfl, hht, htxt,
      andT]
  · intro env atoms fs customs maxSize wb htier
    obtain ⟨b, tr, hbody, -, -, -⟩ := linExtractBody_priority wb htier
    refine ⟨b, Evt.gate :: tr.map Evt.r, ?_⟩
    simp [linPollClipboard, linExtractContent, hbody]

/-- Witness for the amended size-gating claim against the concrete probe
environment. -/
theorem sizeGate_aborts_cycle_witness :
    winPollClipboard envC2 fsC2 [] (some 10) true =
      (Except.ok none, [Evt.gate, Evt.r (REvt.sizeQuery 100)]) :=
  sizeGate_aborts_cycle.1 envC2 fsC2 [] 10 100 rfl
    (by intro f hf; cases hf) (by decide) rfl (by decide)

/-- C3 counterexample: the catalog offers the monitored custom format
`application/x-test` whose payload is empty, next to perfectly readable
plain text; the claimed continue-with-next-tier behaviour would select the
text body; the code instead aborts the whole cycle after reading the empty
payload — no body, no error, text never inspected. -/
theorem emptyContent_no_fallthrough_counterexample :
    winTierEligible envC3 fsC3 [fmtC3] Tier.text = true ∧
      envC3.get fmtC3.id = Except.ok [] ∧
      winPollClipboard envC3 fsC3 [fmtC3] none true =
        (Except.ok none, [Evt.gate, Evt.r (REvt.readFormat 200)]) ∧
      publishOf (winPollClipboard envC3 fsC3 [fmtC3] none true).1 = none := by
  refine ⟨by decide, rfl, by rfl, by rfl⟩

/-- C3 (amended): where extraction detects size-zero content — an empty
Windows format read, an empty macOS data read, a successfully-read but
empty Windows html string, or the Linux size probes when a limit is
configured — it abandons the whole cycle, publishing neither a body nor an
error, and does not continue with the next priority tier; the empty
content is never surfaced to subscribers as an error anywhere.  Two arms,
however, genuinely deviate from size-zero-means-absent: an empty macOS
file list is treated as format-absent and resolution does continue with
the html / text tiers, and on Linux with no configured limit a zero-size
payload goes undetected and is published as a body with empty content. -/
theorem emptyContent_aborts_cycle :
    (∀ (env : WinEnv) (fs : Formats) (rest : List Format) (f : Format),
      env.openClip = Except.ok () →
      fs.containsId f.id = true →
      env.get f.id = Except.ok [] →
      winPollClipboard env fs (f :: rest) none true =
        (Except.ok none, [Evt.gate, Evt.r (REvt.readFormat f.id)])) ∧
    (∀ (env : WinEnv) (fs : Formats) (customs : List Format) (maxSize : Option Nat),
      env.openClip = Except.ok () →
      (∀ f ∈ customs, fs.containsId f.id = false) →
      fs.containsId env.pngId = false →
      fs.containsId CF_DIBV5 = false → fs.containsId CF_DIB = false →
      fs.containsId CF_HDROP = false →
      env.html = some "" →
      winPollClipboard env fs customs maxSize true =
        (Except.ok none, [Evt.gate, Evt.r REvt.readHtml])) ∧
    (∀ (env : MacEnv) (fs : MacFormats) (rest : List MacFormat) (f : MacFormat)
        (maxSize : Option Nat),
      fs.containsFormat f.id = true →
      env.data f.id = some [] →
      macGetClipboardContent env fs (f :: rest) maxSize true =
        (Except.ok none, [Evt.gate, Evt.r (REvt.readName f.id)])) ∧
    (∀ (env : MacEnv) (fs : MacFormats) (customs : List MacFormat)
        (maxSize : Option Nat) (items : List (String → Option String)) (s : String),
      (∀ f ∈ customs, fs.containsFormat f.id = false) →
      fs.containsFormat macPngType = false →
      fs.containsFormat macTiffType = false →
      fs.containsFormat macFileUrlType = true →
      env.fileUrls = some [] →
      fs.containsFormat macHtmlType = true →
      env.items = some items →
      macStringLoop macHtmlType items = Except.ok (some s) →
      macGetClipboardContent env fs customs maxSize true =
        (Except.ok (some (Body.Html s)),
         [Evt.gate, Evt.r REvt.readFileList, Evt.r (REvt.readName macHtmlType)])) ∧
    (∀ (env : LinEnv) (atoms : LinAtoms) (fs : Formats) (rest : List Format)
        (f : Format) (m prop : Nat) (sizeBytes : List Nat),
      fs.containsId f.id = true →
      fs.containsId atoms.LENGTH = true →
      env.request atoms.LENGTH atoms.METADATA = Except.ok prop →
      env.readProp prop = Except.ok sizeBytes →
      4 ≤ sizeBytes.length → u32FromLe sizeBytes = 0 →
      linPollClipboard env atoms fs (f :: rest) (some m) true =
        (Except.ok none, [Evt.gate, Evt.r REvt.readLength])) ∧
    (∀ (env : LinEnv) (atoms : LinAtoms) (fs : Formats) (customs : List Format)
        (m dataProp : Nat),
      (∀ f ∈ customs, fs.containsId f.id = false) →
      fs.containsId atoms.PNG_MIME = true →
      fs.containsId atoms.LENGTH = false →
      env.request atoms.PNG_MIME atoms.DATA = Except.ok dataProp →
      env.propSize dataProp = Except.ok 0 →
      linPollClipboard env atoms fs customs (some m) true =
        (Except.ok none, [Evt.gate, Evt.r REvt.propSizeQuery])) ∧
    (∀ (env : LinEnv) (atoms : LinAtoms) (fs : Formats) (rest : List Format)
        (f : Format) (prop : Nat),
      fs.containsId f.id = true →
      env.request f.id atoms.DATA = Except.ok prop →
      env.readProp prop = Except.ok [] →
      linPollClipboard env atoms fs (f :: rest) none true =
        (Except.ok (some (Body.Custom f.name [])),
         [Evt.gate, Evt.r (REvt.readFormat f.id)])) := by
  refine ⟨?_, ?_, ?_, ?_, ?_, ?_, ?_⟩
  · intro env fs rest f hopen hf hget
    simp [winPollClipboard, hopen, winExtractContent, winExtractBody, winExtractCustoms,
      winExtractFormat, winGetData, hf, hget, andT]
  · intro env fs customs maxSize hopen hcn hp h5 h8 hh hhtml
    have hemp : ("" : String).isEmpty = true := rfl
    simp [winPollClipboard, hopen, winExtractContent, winExtractBody,
      @winExtractCustoms_none env fs customs maxSize hcn,
      @winExtractFormat_absent env fs env.pngId maxSize hp,
      @winExtractRawImage_absent env fs maxSize h5 h8,
      @winExtractFilesList_absent env fs hh, winHtmlText, hhtml, hemp, andT]
  · intro env fs rest f maxSize hf hdata
    simp [macGetClipboardContent, macExtractContent, macExtractBody, macExtractCustoms,
      macExtractFormat, hf, hdata, andT]
  · intro env fs customs maxSize items s hcn hp ht hfu hfl hht hit hs
    simp [macGetClipboardContent, macExtractContent, macExtractBody,
      @macExtractCustoms_none env fs customs maxSize hcn,
      @macExtractFormat_absent env fs macPngType maxSize hp,
      @macExtractRawImage_absent env fs maxSize ht,
      macExtractFilesList, hfu, hfl,
      macStringFromType_present hht hit hs, andT]
  · intro env atoms fs rest f m prop sizeBytes hf hlenp hreq hread hlen4 hzero
    simp [linPollClipboard, linExtractContent, linExtractBody, linExtractCustoms, hf,
      read_format_with_size_check, hlenp, linRequestRead, hreq, hread, hlen4, hzero,
      andT]
  · intro env atoms fs customs m dataProp hcn hp hlen hreq hpsz
    have hcust := @linExtractCustoms_none env atoms fs customs (some m) hcn
    simp [linPollClipboard, linExtractContent, linExtractBody, hcust, hp,
      read_format_with_size_check, hlen, linSlowPath, hreq, hpsz, andT]
  · intro env atoms fs rest f prop hf hreq hread
    simp [linPollClipboard, linExtractContent, linExtractBody, linExtractCustoms, hf,
      read_format_with_size_check, linSlowPath, hreq, hread, andT]

/-- Witness for the amended empty-content claim against the concrete probe
environment. -/
theorem emptyContent_aborts_cycle_witness :
    winPollClipboard envC3 fsC3 [fmtC3] none true =
      (Except.ok none, [Evt.gate, Evt.r (REvt.readFormat 200)]) :=
  emptyContent_aborts_cycle.1 envC3 fsC3 [] fmtC3 rfl (by decide) rfl

end ClipWatch
